import Mathlib

/-!
# goshi: Windows processor-topology decoding

A shallow embedding of `windows/internal/lpiex.go` and `windows/internal/lpi.go`
(package `internal`), of `Processor` and `parseIdentifier` in
`windows/hardware/processor.go`, of `NewProcessorIdentifier` in
`sysinfo/hardware/processor.go` and of `ParseHertz` in `util/util.go`, with theorems
about the extended-format record walk (`GetSystemLogicalProcessorInformationEx`), the
reconciliation of decoded records (`GetLogicalProcessorInformationEx`), the legacy path
(`getSystemLogicalProcessorInformation`, `GetLogicalProcessorInformation`), the counts
reported by `Processor`, and the processor identifier string.

Conventions of the embedding

* Go `uint`, `uintptr` (64-bit target, as the source's `63 - LeadingZeros` assumes),
  `uint32`, `uint16`, `uint8` values are `Nat`s; where the source shifts or converts,
  the result is reduced with `% 2 ^ 64`.
* Go `int` fields of the result structures only ever hold indices and bit numbers,
  which are non-negative: they are `Nat`s.  Loop bounds that can be negative
  (`hiBit`) are `Int`s.
* A Go `map[K]V` is an association list, newest binding first; a missing key reads
  as the zero value.
* A run-time panic (index out of range, failed type assertion) and a returned `error`
  are the two constructors of `Fault`; functions that can fail return `Except Fault`.
* Results of system calls (the topology buffer, the WMI query, the registry, the
  version flags) are parameters; so are the Go `regexp` package and the `float64`
  operations.
-/

namespace Goshi

/-! ## Go runtime helpers -/

/-- Ways a Go call can fail: a returned `error` value or a run-time panic. -/
inductive Fault where
  | error (msg : String)
  | panic (msg : String)
  deriving DecidableEq, Repr

/-- Truncation to a 64-bit unsigned word. -/
def u64 (x : Nat) : Nat := x % 2 ^ 64

/-- Go `bits.TrailingZeros` on a 64-bit `uint`: the number of trailing zero bits,
`64` for `x = 0`. -/
def TrailingZeros (x : Nat) : Nat :=
  ((List.range 64).takeWhile (fun i => (x >>> i) % 2 = 0)).length

/-- Go `bits.LeadingZeros` on a 64-bit `uint`: the number of leading zero bits,
`64` for `x = 0`. -/
def LeadingZeros (x : Nat) : Nat :=
  ((List.range 64).reverse.takeWhile (fun i => (x >>> i) % 2 = 0)).length

/-- The values taken by the loop variable of `for i := lo; i <= hi; i++`. -/
def forLoop (lo : Nat) (hi : Int) : List Nat :=
  List.range' lo (hi + 1 - (lo : Int)).toNat

/-- Reading a Go map held as an association list: the newest binding of `k`, or the
zero value `z` when `k` is absent. -/
def mapGet {κ ν : Type} [DecidableEq κ] (z : ν) (m : List (κ × ν)) (k : κ) : ν :=
  match m with
  | [] => z
  | (k', v) :: rest => if k' = k then v else mapGet z rest k

/-- Writing `m[k] = v`. -/
def mapSet {κ ν : Type} (m : List (κ × ν)) (k : κ) (v : ν) : List (κ × ν) :=
  (k, v) :: m

/-! ## Data model (`lpiex.go`, `lpi.go`) -/

def RelationProcessorCore : Nat := 0
def RelationNumaNode : Nat := 1
def RelationProcessorPackage : Nat := 2
def RelationAll : Nat := 0xFFFF

/-- The Go struct `GroupAffinity`; its blank padding field takes no part in equality. -/
structure GroupAffinity where
  Mask : Nat
  Group : Nat
  deriving DecidableEq, Repr

structure ProcessorRelationship where
  Relationship : Nat
  Flags : Nat
  EfficiencyClass : Nat
  GroupCount : Nat
  GroupMasks : List GroupAffinity
  deriving DecidableEq, Repr

structure NumaNodeRelationship where
  Relationship : Nat
  NodeNumber : Nat
  GroupCount : Nat
  GroupMasks : List GroupAffinity
  deriving DecidableEq, Repr

/-- The Go interface `SystemLogicalProcessorInformationEx` with its two implementing
types. -/
inductive SystemLogicalProcessorInformationEx where
  | processor (p : ProcessorRelationship)
  | numa (n : NumaNodeRelationship)
  deriving DecidableEq, Repr

def SystemLogicalProcessorInformationEx.GetRelationship :
    SystemLogicalProcessorInformationEx → Nat
  | .processor p => p.Relationship
  | .numa n => n.Relationship

structure LogicalProcessor where
  ProcessorNumber : Nat
  PhysicalProcessorNumber : Nat
  PhysicalPackageNumber : Nat
  NumaNode : Nat
  ProcessorGroup : Nat
  deriving DecidableEq, Repr

structure PhysicalProcessor where
  PhysicalPackageNumber : Nat
  PhysicalProcessorNumber : Nat
  Efficiency : Nat
  IdString : String
  deriving DecidableEq, Repr

/-- The Go struct `LogicalProcessorInformation`; `PhysicalProcessors = none` is the
`nil` slice (the legacy path), `some []` an allocated empty slice. -/
structure LogicalProcessorInformation where
  LogicalProcessors : List LogicalProcessor
  PhysicalProcessors : Option (List PhysicalProcessor)
  deriving DecidableEq, Repr

/-- The Go struct `Win32Processor` (`wmi.go`). -/
structure Win32Processor where
  ProcessorId : String
  deriving DecidableEq, Repr

/-- The Go struct `ProcessorCore` of the legacy path (`lpi.go`). -/
structure ProcessorCore where
  ProcessorMask : Nat
  Relationship : Nat
  Flags : Nat
  deriving DecidableEq, Repr

def ProcessorCore.GetProcessorMask (p : ProcessorCore) : Nat := p.ProcessorMask

/-! ## Reconciliation helpers (`lpiex.go`) -/

/-- The loop of `getPhysicalProcessors`, from index `i` on. -/
def getPhysicalProcessorsFrom (coreEfficiencyMap : List (GroupAffinity × Nat))
    (corePkgMap : List (Nat × Nat)) (pkgCpuidMap : List (Nat × String)) :
    Nat → List GroupAffinity → List PhysicalProcessor
  | _, [] => []
  | i, core :: rest =>
    { PhysicalPackageNumber := mapGet 0 corePkgMap i
      PhysicalProcessorNumber := i
      Efficiency := mapGet 0 coreEfficiencyMap core
      IdString := mapGet "" pkgCpuidMap i } ::
      getPhysicalProcessorsFrom coreEfficiencyMap corePkgMap pkgCpuidMap (i + 1) rest

def getPhysicalProcessors (cores : List GroupAffinity)
    (coreEfficiencyMap : List (GroupAffinity × Nat))
    (corePkgMap : List (Nat × Nat)) (pkgCpuidMap : List (Nat × String)) :
    List PhysicalProcessor :=
  getPhysicalProcessorsFrom coreEfficiencyMap corePkgMap pkgCpuidMap 0 cores

/-- The loop of `matchingCore`, from index `i` on; `none` when it runs off the end. -/
def matchingCoreFrom (g lp : Nat) : Nat → List GroupAffinity → Option Nat
  | _, [] => none
  | i, core :: rest =>
    if core.Mask &&& u64 (1 <<< lp) ≠ 0 ∧ core.Group = g then some i
    else matchingCoreFrom g lp (i + 1) rest

def matchingCore (cores : List GroupAffinity) (g lp : Nat) : Nat :=
  (matchingCoreFrom g lp 0 cores).getD 0

/-- The inner loop of `matchingPackage` over one row. -/
def rowMatches (g lp : Nat) (row : List GroupAffinity) : Bool :=
  row.any (fun col => decide (col.Mask &&& u64 (1 <<< lp) ≠ 0 ∧ col.Group = g))

/-- The outer loop of `matchingPackage`, from index `i` on. -/
def matchingPackageFrom (g lp : Nat) : Nat → List (List GroupAffinity) → Option Nat
  | _, [] => none
  | i, row :: rest =>
    if rowMatches g lp row then some i else matchingPackageFrom g lp (i + 1) rest

def matchingPackage (packages : List (List GroupAffinity)) (g lp : Nat) : Nat :=
  (matchingPackageFrom g lp 0 packages).getD 0

/-! ## `GetLogicalProcessorInformationEx`: reconciliation of the decoded records -/

/-- The locals filled by the first loop of `GetLogicalProcessorInformationEx`. -/
structure Gathered where
  packages : List (List GroupAffinity)
  cores : List GroupAffinity
  numaNodes : List NumaNodeRelationship
  coreEfficiencyMap : List (GroupAffinity × Nat)
  deriving DecidableEq, Repr

/-- One iteration of `for _, info := range procInfo` (the `switch` on
`info.GetRelationship()`).  The type assertions `info.(ProcessorRelationship)` and
`info.(NumaNodeRelationship)` panic on the other dynamic type, and
`core.GroupMasks[0]` panics on an empty slice. -/
def gatherStep (Windows10OrGreater : Bool) (st : Gathered)
    (info : SystemLogicalProcessorInformationEx) : Except Fault Gathered :=
  if info.GetRelationship = RelationProcessorCore then
    match info with
    | .processor core =>
      let st1 : Gathered := { st with cores := st.cores ++ core.GroupMasks }
      if Windows10OrGreater then
        match core.GroupMasks with
        | [] => .error (.panic "index out of range [0] with length 0")
        | first :: _ =>
          .ok { st1 with
            coreEfficiencyMap := mapSet st1.coreEfficiencyMap first core.EfficiencyClass }
      else .ok st1
    | .numa _ => .error (.panic "interface conversion: not ProcessorRelationship")
  else if info.GetRelationship = RelationNumaNode then
    match info with
    | .numa numa => .ok { st with numaNodes := st.numaNodes ++ [numa] }
    | .processor _ => .error (.panic "interface conversion: not NumaNodeRelationship")
  else if info.GetRelationship = RelationProcessorPackage then
    match info with
    | .processor pkg => .ok { st with packages := st.packages ++ [pkg.GroupMasks] }
    | .numa _ => .error (.panic "interface conversion: not ProcessorRelationship")
  else .ok st

/-- The first loop of `GetLogicalProcessorInformationEx`. -/
def gather (Windows10OrGreater : Bool) :
    Gathered → List SystemLogicalProcessorInformationEx → Except Fault Gathered
  | st, [] => .ok st
  | st, info :: rest =>
    match gatherStep Windows10OrGreater st info with
    | .error e => .error e
    | .ok st1 => gather Windows10OrGreater st1 rest

/-- The locals updated by the loop over `numaNodes`. -/
structure Reconciled where
  logProcs : List LogicalProcessor
  corePkgMap : List (Nat × Nat)
  pkgCpuidMap : List (Nat × String)
  deriving DecidableEq, Repr

/-- The body of `for lp := lowBit; lp <= hiBit; lp++`.  The guard is the source's
`(mask & 1 << lp) == 0`; in Go `&` and `<<` have the same precedence and associate to
the left, so it reads `((mask & 1) << lp) == 0`. -/
def numaBitStep (cores : List GroupAffinity) (packages : List (List GroupAffinity))
    (processorIdMap : List (Nat × String)) (numa : NumaNodeRelationship)
    (group mask : Nat) (acc : Reconciled) (lp : Nat) : Reconciled :=
  if u64 ((mask &&& 1) <<< lp) = 0 then acc
  else
    let coreId := matchingCore cores group lp
    let pkgId := matchingPackage packages group lp
    { logProcs := acc.logProcs ++
        [{ ProcessorNumber := lp
           PhysicalProcessorNumber := coreId
           PhysicalPackageNumber := pkgId
           NumaNode := numa.NodeNumber
           ProcessorGroup := group }]
      corePkgMap := mapSet acc.corePkgMap coreId pkgId
      pkgCpuidMap := mapSet acc.pkgCpuidMap coreId (mapGet "" processorIdMap pkgId) }

/-- One iteration of `for _, numa := range numaNodes`; `numa.GroupMasks[0]` panics on
an empty slice. -/
def numaStep (cores : List GroupAffinity) (packages : List (List GroupAffinity))
    (processorIdMap : List (Nat × String)) (acc : Reconciled)
    (numa : NumaNodeRelationship) : Except Fault Reconciled :=
  match numa.GroupMasks with
  | [] => .error (.panic "index out of range [0] with length 0")
  | first :: _ =>
    let group := first.Group
    let mask := u64 first.Mask
    let lowBit := TrailingZeros mask
    let hiBit : Int := 63 - (LeadingZeros mask : Int)
    .ok ((forLoop lowBit hiBit).foldl
      (numaBitStep cores packages processorIdMap numa group mask) acc)

/-- The loop over `numaNodes`. -/
def reconcile (cores : List GroupAffinity) (packages : List (List GroupAffinity))
    (processorIdMap : List (Nat × String)) :
    Reconciled → List NumaNodeRelationship → Except Fault Reconciled
  | acc, [] => .ok acc
  | acc, numa :: rest =>
    match numaStep cores packages processorIdMap acc numa with
    | .error e => .error e
    | .ok acc1 => reconcile cores packages processorIdMap acc1 rest

/-- The map built by `for i, value := range processorId`. -/
def processorIdMapOf (processorId : List Win32Processor) : List (Nat × String) :=
  processorId.enum.map (fun iv => (iv.1, iv.2.ProcessorId))

/-- The function `GetLogicalProcessorInformationEx`, as a function of what its collaborators
return: `sys` is the result of `GetSystemLogicalProcessorInformationEx()`, `wmi` the
result of `WmiQueryProcessor()`. -/
def GetLogicalProcessorInformationEx
    (sys : Except Fault (List SystemLogicalProcessorInformationEx))
    (Windows10OrGreater : Bool) (wmi : Except Fault (List Win32Processor)) :
    Except Fault LogicalProcessorInformation :=
  match sys with
  | .error e => .error e
  | .ok procInfo =>
    match gather Windows10OrGreater ⟨[], [], [], []⟩ procInfo with
    | .error e => .error e
    | .ok st =>
      match wmi with
      | .error e => .error e
      | .ok processorId =>
        match reconcile st.cores st.packages (processorIdMapOf processorId)
            ⟨[], [], []⟩ st.numaNodes with
        | .error e => .error e
        | .ok acc =>
          .ok { LogicalProcessors := acc.logProcs
                PhysicalProcessors :=
                  some (getPhysicalProcessors st.cores st.coreEfficiencyMap
                    acc.corePkgMap acc.pkgCpuidMap) }

/-! ## `GetLogicalProcessorInformation`: the legacy path (`lpi.go`)

`int64` masks are held as their 64-bit patterns, so `int64(x)` and `uint(x)` are the
identity on them. -/

/-- The loop of `getBitMatchingPackageNumber`, from index `i` on. -/
def getBitMatchingPackageNumberFrom (logProc : Nat) : Nat → List Nat → Option Nat
  | _, [] => none
  | i, mask :: rest =>
    if mask &&& u64 (1 <<< logProc) ≠ 0 then some i
    else getBitMatchingPackageNumberFrom logProc (i + 1) rest

def getBitMatchingPackageNumber (maskList : List Nat) (logProc : Nat) : Nat :=
  (getBitMatchingPackageNumberFrom logProc 0 maskList).getD 0

/-- The two mask lists filled by the first loop of `GetLogicalProcessorInformation`. -/
structure LegacyMasks where
  packageMaskList : List Nat
  coreMaskList : List Nat
  deriving DecidableEq, Repr

/-- One iteration of `for _, info := range procInfo`.  The source switches on
`info.GetProcessorMask()` and compares it with the relationship constants. -/
def legacyGatherStep (st : LegacyMasks) (info : ProcessorCore) : LegacyMasks :=
  let mask := info.GetProcessorMask
  if info.GetProcessorMask = RelationProcessorPackage then
    { st with packageMaskList := st.packageMaskList ++ [mask] }
  else if info.GetProcessorMask = RelationProcessorCore then
    { st with coreMaskList := st.coreMaskList ++ [mask] }
  else st

/-- The body of `for i := lowBit; i <= hiBit; i++` of the legacy path. -/
def legacyBitStep (packageMaskList : List Nat) (core mask : Nat)
    (logProcs : List LogicalProcessor) (i : Nat) : List LogicalProcessor :=
  if mask &&& u64 (1 <<< i) = 0 then logProcs
  else
    logProcs ++
      [{ ProcessorNumber := i
         PhysicalProcessorNumber := core
         PhysicalPackageNumber := getBitMatchingPackageNumber packageMaskList i
         NumaNode := 0
         ProcessorGroup := 0 }]

/-- The loop `for core := 0; core < len(coreMaskList); core++`, from index `core` on
over the remaining masks. -/
def legacyCoreLoop (packageMaskList : List Nat) :
    Nat → List Nat → List LogicalProcessor → List LogicalProcessor
  | _, [], logProcs => logProcs
  | core, m :: rest, logProcs =>
    let mask := u64 m
    let lowBit := TrailingZeros mask
    let hiBit : Int := 63 - (LeadingZeros mask : Int)
    legacyCoreLoop packageMaskList (core + 1) rest
      ((forLoop lowBit hiBit).foldl (legacyBitStep packageMaskList core mask) logProcs)

/-- The function `GetLogicalProcessorInformation`, as a function of what
`getSystemLogicalProcessorInformation()` returns. -/
def GetLogicalProcessorInformation (sys : Except Fault (List ProcessorCore)) :
    Except Fault LogicalProcessorInformation :=
  match sys with
  | .error e => .error e
  | .ok procInfo =>
    let st := procInfo.foldl legacyGatherStep ⟨[], []⟩
    .ok { LogicalProcessors := legacyCoreLoop st.packageMaskList 0 st.coreMaskList []
          PhysicalProcessors := none }

/-! ## `GetSystemLogicalProcessorInformationEx`: the record walk over the buffer

The source overlays structs on the buffer through `unsafe.Pointer`.  Memory is a
function from byte offsets, counted from `&buf[0]`, to bytes; offsets at or past
`len(buf)` are whatever lies behind the buffer.  Multi-byte fields are little-endian. -/

def readU8 (mem : Nat → Nat) (a : Nat) : Nat := mem a % 256

def readU16 (mem : Nat → Nat) (a : Nat) : Nat :=
  readU8 mem a + 256 * readU8 mem (a + 1)

def readU32 (mem : Nat → Nat) (a : Nat) : Nat :=
  readU16 mem a + 65536 * readU16 mem (a + 2)

def readU64 (mem : Nat → Nat) (a : Nat) : Nat :=
  readU32 mem a + 4294967296 * readU32 mem (a + 4)

/-- A `GroupAffinity` overlaid at address `a`: `Mask uintptr` at offset 0, `Group
uint16` at offset 8, three `uint16` of padding; 16 bytes. -/
def readGroupAffinity (mem : Nat → Nat) (a : Nat) : GroupAffinity :=
  { Mask := readU64 mem a, Group := readU16 mem (a + 8) }

/-- The slice `unsafe.Slice((*GroupAffinity)(arrPtr), n)`. -/
def unsafeSlice (mem : Nat → Nat) (arrPtr n : Nat) : List GroupAffinity :=
  (List.range n).map (fun k => readGroupAffinity mem (arrPtr + 16 * k))

/-- The function `parseProcessorRelationship`: the header `{f, ec uint8; _ [20]uint8; gc uint16}`
is 24 bytes, with `gc` at offset 22. -/
def parseProcessorRelationship (mem : Nat → Nat) (uPtr : Nat) : ProcessorRelationship :=
  { Relationship := 0
    Flags := readU8 mem uPtr
    EfficiencyClass := readU8 mem (uPtr + 1)
    GroupCount := readU16 mem (uPtr + 22)
    GroupMasks := unsafeSlice mem (uPtr + 24) (readU16 mem (uPtr + 22)) }

/-- The function `parseNumaRelationship`: the header `{nn uint32; _ [18]uint8; gc uint16}` is 24
bytes, with `gc` at offset 22. -/
def parseNumaRelationship (mem : Nat → Nat) (uPtr : Nat) : NumaNodeRelationship :=
  { Relationship := 0
    NodeNumber := readU32 mem uPtr
    GroupCount := readU16 mem (uPtr + 22)
    GroupMasks := unsafeSlice mem (uPtr + 24) (readU16 mem (uPtr + 22)) }

/-- The loop variables of the record walk. -/
structure WalkState where
  off : Nat
  relationships : List SystemLogicalProcessorInformationEx
  deriving DecidableEq, Repr

/-- The body of `for off := 0; off < int(lpiExRl); { ... }`: overlay
`procRel{rel, size uint32}` at `off`, decode by tag, advance by `info.size`. -/
def walkStep (mem : Nat → Nat) (s : WalkState) : WalkState :=
  let ptr := s.off
  let rel := readU32 mem ptr
  let size := readU32 mem (ptr + 4)
  let headerPtr := ptr + 8
  let relationships :=
    if rel = RelationProcessorCore ∨ rel = RelationProcessorPackage then
      s.relationships ++
        [.processor { parseProcessorRelationship mem headerPtr with Relationship := rel }]
    else if rel = RelationNumaNode then
      s.relationships ++
        [.numa { parseNumaRelationship mem headerPtr with Relationship := rel }]
    else s.relationships
  { off := s.off + size, relationships := relationships }

/-- The record walk, run for at most `fuel` evaluations of the loop condition; `none`
when the fuel runs out before the loop exits.  `&buf[off]` panics when `off` is not
below `len(buf) = bufLen`. -/
def walkLoop (mem : Nat → Nat) (bufLen lpiExRl : Nat) :
    Nat → WalkState → Option (Except Fault (List SystemLogicalProcessorInformationEx))
  | 0, _ => none
  | fuel + 1, s =>
    if s.off < lpiExRl then
      if s.off < bufLen then walkLoop mem bufLen lpiExRl fuel (walkStep mem s)
      else some (.error (.panic "index out of range"))
    else some (.ok s.relationships)

/-- What the two calls of the kernel32 procedure hand back. -/
structure LpiExCalls where
  /-- Whether the first call failed with `ERROR_INSUFFICIENT_BUFFER`. -/
  insufficientBuffer : Bool
  /-- The value of `lpiExRl` after the first call: the length of `buf`. -/
  firstLength : Nat
  /-- The return value of the second call. -/
  res : Nat
  /-- The value of `lpiExRl` after the second call. -/
  secondLength : Nat
  /-- The bytes at `&buf[0]` onwards after the second call. -/
  mem : Nat → Nat

/-- The function `GetSystemLogicalProcessorInformationEx`, as a function of what the system calls
return, run with `fuel` for the record walk. -/
def GetSystemLogicalProcessorInformationEx (calls : LpiExCalls) (fuel : Nat) :
    Option (Except Fault (List SystemLogicalProcessorInformationEx)) :=
  if !calls.insufficientBuffer then
    some (.error (.error "lpiex: failed to get buffer length"))
  else if calls.firstLength = 0 then
    some (.error (.panic "index out of range [0] with length 0"))
  else if calls.res = 0 then
    some (.error (.error "lpiex"))
  else
    walkLoop calls.mem calls.firstLength calls.secondLength fuel ⟨0, []⟩

/-! ## `getSystemLogicalProcessorInformation`: the legacy record walk (`lpi.go`) -/

/-- The value of `unsafe.Sizeof(lpi{})` for `lpi{pm uintptr; r uint32; pi [16]byte}` on
a 64-bit target: `pm` at offset 0, `r` at offset 8, `pi` at offset 12, 28 bytes padded
to the alignment 8. -/
def legacyRecordSize : Nat := 32

/-- The `switch str.r` of the legacy walk: what the record overlaid at `off` appends
to `arr`. -/
def legacyDecodeAt (mem : Nat → Nat) (off : Nat) : List ProcessorCore :=
  let r := readU32 mem (off + 8)
  if r = RelationProcessorPackage ∨ r = RelationProcessorCore then
    [{ ProcessorMask := readU64 mem off, Relationship := r, Flags := readU8 mem (off + 12) }]
  else []

/-- The loop `for off := 0; off+s <= int(lpiRl); off += s`, run for at most `fuel`
evaluations of its condition; `none` when the fuel runs out.  `&buf[off]` panics when
`off` is not below `len(buf) = bufLen`. -/
def legacyWalkLoop (mem : Nat → Nat) (bufLen lpiRl : Nat) :
    Nat → Nat → List ProcessorCore → Option (Except Fault (List ProcessorCore))
  | 0, _, _ => none
  | fuel + 1, off, arr =>
    if off + legacyRecordSize ≤ lpiRl then
      if off < bufLen then
        legacyWalkLoop mem bufLen lpiRl fuel (off + legacyRecordSize)
          (arr ++ legacyDecodeAt mem off)
      else some (.error (.panic "index out of range"))
    else some (.ok arr)

/-- The function `getSystemLogicalProcessorInformation`, as a function of what the
system calls return, run with `fuel` for the record walk. -/
def getSystemLogicalProcessorInformation (calls : LpiExCalls) (fuel : Nat) :
    Option (Except Fault (List ProcessorCore)) :=
  if !calls.insufficientBuffer then
    some (.error (.error "lpi: failed to get buffer length"))
  else if calls.firstLength = 0 then
    some (.error (.panic "index out of range [0] with length 0"))
  else if calls.res = 0 then
    some (.error (.error "lpi"))
  else
    legacyWalkLoop calls.mem calls.firstLength calls.secondLength fuel 0 []

/-! ## `Processor` (`windows/hardware/processor.go`) -/

/-- The Go struct `ProcessorIdentifier` (`sysinfo/hardware/processor.go`). -/
structure ProcessorIdentifier where
  vendor : String
  name : String
  family : String
  model : String
  stepping : String
  processorID : String
  identifier : String
  microarchitecture : String
  is64bit : Bool
  frequency : Int
  deriving DecidableEq, Repr

def ProcessorIdentifier.Identifier (procId : ProcessorIdentifier) : String :=
  procId.identifier

/-- The Go struct `WindowsCentralProcessor`. -/
structure WindowsCentralProcessor where
  processorIdentifier : ProcessorIdentifier
  physicalPackageCount : Nat
  physicalProcessorCount : Nat
  logicalProcessorCount : Nat
  deriving DecidableEq, Repr

def WindowsCentralProcessor.PhysicalPackageCount (w : WindowsCentralProcessor) : Nat :=
  w.physicalPackageCount

def WindowsCentralProcessor.PhysicalProcessorCount (w : WindowsCentralProcessor) : Nat :=
  w.physicalProcessorCount

def WindowsCentralProcessor.LogicalProcessorCount (w : WindowsCentralProcessor) : Nat :=
  w.logicalProcessorCount

/-- The function `processorCounts`, as a function of the version flag and of what the
two topology functions return. -/
def processorCounts (Windows7OrGreater : Bool)
    (extended legacy : Except Fault LogicalProcessorInformation) :
    Except Fault LogicalProcessorInformation :=
  if Windows7OrGreater then extended else legacy

/-- A `set.Set[int]` of the golang-set package, held as the list of its elements
without repetition; `setAdd` is its method `Add`. -/
def setAdd (s : List Nat) (x : Nat) : List Nat :=
  if x ∈ s then s else s ++ [x]

/-- The method `Cardinality` of a set. -/
def setCardinality (s : List Nat) : Nat := s.length

/-- The local `phyProcs` of `Processor`: rebuilt from the keys
`PhysicalPackageNumber<<16 + PhysicalProcessorNumber` of the logical processors when
`counts.PhysicalProcessors` is `nil`, and `counts.PhysicalProcessors` otherwise.  The
order of `keys.ToSlice()` is unspecified; insertion order is used here.  `Processor`
never reads this variable after filling it. -/
def phyProcsOf (counts : LogicalProcessorInformation) : List PhysicalProcessor :=
  match counts.PhysicalProcessors with
  | none =>
    (counts.LogicalProcessors.foldl
      (fun keys core =>
        setAdd keys (core.PhysicalPackageNumber <<< 16 + core.PhysicalProcessorNumber))
      []).map
      (fun key =>
        { PhysicalPackageNumber := key >>> 16
          PhysicalProcessorNumber := key &&& 0xFFFF
          Efficiency := 0
          IdString := "" })
  | some pps => pps

/-- The function `Processor`, as a function of what `processorIdentifier()` and
`processorCounts()` return.  `len(counts.PhysicalProcessors)` is `0` for a `nil`
slice. -/
def Processor (procIdResult : Except Fault ProcessorIdentifier)
    (countsResult : Except Fault LogicalProcessorInformation) :
    Except Fault WindowsCentralProcessor :=
  match procIdResult with
  | .error e => .error e
  | .ok procId =>
    match countsResult with
    | .error e => .error e
    | .ok counts =>
      let _phyProcs := phyProcsOf counts
      let physPkgs := counts.LogicalProcessors.foldl
        (fun s logProc => setAdd s logProc.PhysicalPackageNumber) []
      .ok { processorIdentifier := procId
            physicalProcessorCount := (counts.PhysicalProcessors.getD []).length
            physicalPackageCount := setCardinality physPkgs
            logicalProcessorCount := counts.LogicalProcessors.length }

/-! ## Strings, regular expressions and `float64` (Go standard library)

A Go `string` is a Lean `String`.  The `regexp` package and the `float64` operations
are not part of the repository: a compiled regular expression is a value of
`Regexp pattern`, which carries what the sources rely on, and the `float64`
operations are the fields of `Float64Ops`. -/

/-- One step of the scan that counts capturing groups: `(escaped, inClass, count)`
after reading the character with code `c`, given the code `next` of the character that
follows (`0` at the end).  A parenthesis opens a capturing group when it is not
escaped by a backslash, not inside a character class, and not followed by `?`. -/
def numSubexpStep (st : Bool × Bool × Nat) (c next : Nat) : Bool × Bool × Nat :=
  match st with
  | (true, inClass, count) => (false, inClass, count)
  | (false, true, count) =>
    if c = 92 then (true, true, count)
    else if c = 93 then (false, false, count)
    else (false, true, count)
  | (false, false, count) =>
    if c = 92 then (true, false, count)
    else if c = 91 then (false, true, count)
    else if c = 40 ∧ next ≠ 63 then (false, false, count + 1)
    else (false, false, count)

/-- The scan of `numSubexp` over the characters of a pattern. -/
def numSubexpScan : Bool × Bool × Nat → List Char → Nat
  | st, [] => st.2.2
  | st, [c] => (numSubexpStep st c.toNat 0).2.2
  | st, c :: next :: rest =>
    numSubexpScan (numSubexpStep st c.toNat next.toNat) (next :: rest)

/-- The number of capturing groups of a pattern (`(*Regexp).NumSubexp`), for patterns
without named groups. -/
def numSubexp (pattern : String) : Nat :=
  numSubexpScan (false, false, 0) pattern.data

/-- The value returned by `regexp.MustCompile(pattern)`, as far as the sources use it:
`FindStringSubmatch s` is `none` (the `nil` slice) when `s` has no match, and
otherwise the text of the leftmost match followed by the text of each capturing
group, `numSubexp pattern + 1` strings in all. -/
structure Regexp (pattern : String) where
  FindStringSubmatch : String → Option (List String)
  length_submatch : ∀ s m, FindStringSubmatch s = some m → m.length = numSubexp pattern + 1

/-- The method `MatchString`: whether the string has a match. -/
def Regexp.MatchString {pattern : String} (re : Regexp pattern) (s : String) : Bool :=
  (re.FindStringSubmatch s).isSome

/-- The `float64` operations used by `ParseHertz`: `strconv.ParseFloat(s, 64)`, the
conversion of a constant, the product, and the conversion `int64(x)`. -/
structure Float64Ops (F : Type) where
  ParseFloat : String → Except String F
  ofInt : Int → F
  mul : F → F → F
  toInt64 : F → Int

/-! ## `util.go` -/

/-- The table `multipliers` of `util.go`. -/
def multipliers : List (String × Int) :=
  [("Hz", 1), ("KHz", 1000), ("MHz", 1000000), ("GHz", 1000000000),
   ("THz", 1000000000000), ("PHz", 1000000000000000)]

/-- The pattern of `hertzPattern` in `util.go`. -/
def hertzPatternSource : String := "(\\d+(.\\d+)?) ?([kKMGT]?Hz).*"

/-- The pattern of `freqRegex` in `sysinfo/hardware/processor.go`. -/
def freqRegexSource : String := "@ (.*)$"

/-- The function `ParseHertz`.  The match on `matches` is the test
`len(matches) != 3`, after which `matches[1]` and `matches[2]` exist. -/
def ParseHertz {F : Type} (hertzPattern : Regexp hertzPatternSource) (ops : Float64Ops F)
    (s : String) : Except Fault Int :=
  if !hertzPattern.MatchString s then .ok (-1)
  else
    match (hertzPattern.FindStringSubmatch s).getD [] with
    | [_, m1, m2] =>
      match ops.ParseFloat m1 with
      | .error _ => .error (.panic "error parsing hertz")
      | .ok val =>
        let multiplier :=
          match multipliers.lookup m2 with
          | some m => ops.ofInt m
          | none => ops.ofInt (-1)
        .ok (ops.toInt64 (ops.mul val multiplier))
    | _ => .ok (-1)

/-! ## `NewProcessorIdentifier` (`sysinfo/hardware/processor.go`) -/

/-- The function `NewProcessorIdentifier`.  `freqRegex.FindStringSubmatch(name)[1]`
panics when the slice has fewer than two elements. -/
def NewProcessorIdentifier {F : Type} (freqRegex : Regexp freqRegexSource)
    (hertzPattern : Regexp hertzPatternSource) (ops : Float64Ops F)
    (vendor name family model stepping processorID : String) (is64bit : Bool)
    (frequency : Int) : Except Fault ProcessorIdentifier :=
  let identifier :=
    if vendor = "GenuineIntel" then (if is64bit then "Intel64" else "x86") else vendor
  let identifier :=
    identifier ++ " Family " ++ family ++ " Model " ++ model ++ " Stepping " ++ stepping
  let frequencyResult : Except Fault Int :=
    if frequency < 1 then
      if freqRegex.MatchString name then
        match (freqRegex.FindStringSubmatch name).getD [] with
        | _ :: unit :: _ => ParseHertz hertzPattern ops unit
        | _ => .error (.panic "index out of range [1]")
      else .ok (-1)
    else .ok frequency
  match frequencyResult with
  | .error e => .error e
  | .ok frequency =>
    .ok { vendor := vendor
          name := name
          family := family
          model := model
          stepping := stepping
          processorID := processorID
          identifier := identifier
          microarchitecture := ""
          is64bit := is64bit
          frequency := frequency }

/-! ## `parseIdentifier` (`windows/hardware/processor.go`) -/

/-- Go `unicode.IsSpace`: the characters with the Unicode property White_Space. -/
def isSpace (c : Char) : Bool :=
  decide (c.toNat ∈ [9, 10, 11, 12, 13, 32, 0x85, 0xA0, 0x1680, 0x2028, 0x2029, 0x202F,
      0x205F, 0x3000] ∨ (0x2000 ≤ c.toNat ∧ c.toNat ≤ 0x200A))

/-- The scan of `strings.Fields`: `cur` is the field being read, empty between
fields. -/
def fieldsAux : List Char → List Char → List (List Char)
  | cur, [] => if cur = [] then [] else [cur]
  | cur, c :: rest =>
    if isSpace c then
      if cur = [] then fieldsAux [] rest else cur :: fieldsAux [] rest
    else fieldsAux (cur ++ [c]) rest

/-- Go `strings.Fields`: the maximal runs of characters that are not white space. -/
def Fields (s : String) : List String :=
  (fieldsAux [] s.data).map String.mk

/-- The loop of `parseIdentifier` over the fields, with the current value of `found`. -/
def parseIdentifierLoop (key : String) : Bool → List String → String
  | _, [] => ""
  | found, m :: rest =>
    if found then m else parseIdentifierLoop key (m == key) rest

def parseIdentifier (id key : String) : String :=
  parseIdentifierLoop key false (Fields id)

/-- A string is non-empty, has no white space, and is none of the keywords `Family`,
`Model` and `Stepping`. -/
def IsPlainWord (s : String) : Prop :=
  s ≠ "" ∧ (∀ c ∈ s.data, isSpace c = false) ∧
    s ≠ "Family" ∧ s ≠ "Model" ∧ s ≠ "Stepping"

instance (s : String) : Decidable (IsPlainWord s) := by
  unfold IsPlainWord; infer_instance

/-- No field of the string is one of the keywords `Family`, `Model` and `Stepping`. -/
def NoKeywordField (s : String) : Prop :=
  ∀ f ∈ Fields s, f ≠ "Family" ∧ f ≠ "Model" ∧ f ≠ "Stepping"

instance (s : String) : Decidable (NoKeywordField s) := by
  unfold NoKeywordField; infer_instance

/-! ## The two regular expressions of the sources, as matchers

Leftmost-first matching (the semantics of the Go `regexp` package) written out for the
two patterns.  `.` matches every character but the line feed; `\d` matches `0` to `9`;
`$` matches at the end of the text. -/

/-- A decimal digit. -/
def isDigit (c : Char) : Bool := decide (48 ≤ c.toNat ∧ c.toNat ≤ 57)

/-- The ways to read `\d+` at the head of the text, shortest first: the digits read
and the rest of the text. -/
def digitRuns : List Char → List (List Char × List Char)
  | [] => []
  | c :: rest =>
    if isDigit c then ([c], rest) :: (digitRuns rest).map (fun pr => (c :: pr.1, pr.2))
    else []

/-- The subpattern `[kKMGT]?Hz` at the head of the text: the unit read and the rest. -/
def matchHertzUnit : List Char → Option (List Char × List Char)
  | c :: h :: z :: rest =>
    if c.toNat ∈ [107, 75, 77, 71, 84] ∧ h.toNat = 72 ∧ z.toNat = 122 then
      some ([c, h, z], rest)
    else if c.toNat = 72 ∧ h.toNat = 122 then some ([c, h], z :: rest)
    else none
  | [h, z] => if h.toNat = 72 ∧ z.toNat = 122 then some ([h, z], []) else none
  | _ => none

/-- The subpattern ` ?([kKMGT]?Hz)` at the head of the text: the blank read, the unit
and the rest. -/
def matchSpaceUnit : List Char → Option (List Char × List Char × List Char)
  | [] => none
  | c :: rest =>
    if c.toNat = 32 then (matchHertzUnit rest).map (fun ur => ([c], ur.1, ur.2))
    else (matchHertzUnit (c :: rest)).map (fun ur => ([], ur.1, ur.2))

/-- The subpattern `(.\d+)? ?([kKMGT]?Hz)` after the first digits, the optional group
tried first, with its longest run of digits first: the text of the group, the blank,
the unit and the rest. -/
def matchFractionUnit (r : List Char) :
    Option (List Char × List Char × List Char × List Char) :=
  let withFraction : Option (List Char × List Char × List Char × List Char) :=
    match r with
    | [] => none
    | c :: r1 =>
      if c.toNat = 10 then none
      else
        (digitRuns r1).reverse.findSome? (fun (d2 : List Char × List Char) =>
          (matchSpaceUnit d2.2).map
            (fun (sur : List Char × List Char × List Char) =>
              (c :: d2.1, sur.1, sur.2.1, sur.2.2)))
  match withFraction with
  | some x => some x
  | none =>
    (matchSpaceUnit r).map
      (fun (sur : List Char × List Char × List Char) => ([], sur.1, sur.2.1, sur.2.2))

/-- The match of `hertzPattern` that starts at the head of the text, the longest run
of first digits tried first: the whole match and the three groups. -/
def matchHertzAt (l : List Char) :
    Option (List Char × List Char × List Char × List Char) :=
  (digitRuns l).reverse.findSome? (fun (d1 : List Char × List Char) =>
    (matchFractionUnit d1.2).map
      (fun (m : List Char × List Char × List Char × List Char) =>
        (d1.1 ++ m.1 ++ m.2.1 ++ m.2.2.1 ++ m.2.2.2.takeWhile (fun c => c.toNat ≠ 10),
         d1.1 ++ m.1, m.1, m.2.2.1)))

/-- The leftmost match of `hertzPattern` in the text. -/
def findHertz : List Char → Option (List Char × List Char × List Char × List Char)
  | [] => none
  | c :: rest =>
    match matchHertzAt (c :: rest) with
    | some m => some m
    | none => findHertz rest

/-- The leftmost match of `freqRegex` in the text: `@`, a blank, and the rest of the
text when it has no line feed; the whole match and the group. -/
def findFreq : List Char → Option (List Char × List Char)
  | [] => none
  | [_] => none
  | c :: b :: rest =>
    if c.toNat = 64 ∧ b.toNat = 32 ∧ rest.all (fun x => x.toNat ≠ 10) then
      some (c :: b :: rest, rest)
    else findFreq (b :: rest)

/-- The regular expression `hertzPattern`. -/
def hertzPatternMatcher : Regexp hertzPatternSource where
  FindStringSubmatch s :=
    (findHertz s.data).map
      (fun m => [String.mk m.1, String.mk m.2.1, String.mk m.2.2.1, String.mk m.2.2.2])
  length_submatch := by
    intro s m h
    cases hf : findHertz s.data with
    | none => simp [hf] at h
    | some x =>
      simp only [hf, Option.map_some', Option.some.injEq] at h
      subst h
      rfl

/-- The regular expression `freqRegex`. -/
def freqRegexMatcher : Regexp freqRegexSource where
  FindStringSubmatch s :=
    (findFreq s.data).map (fun m => [String.mk m.1, String.mk m.2])
  length_submatch := by
    intro s m h
    cases hf : findFreq s.data with
    | none => simp [hf] at h
    | some x =>
      simp only [hf, Option.map_some', Option.some.injEq] at h
      subst h
      rfl

/-- The value of a run of decimal digits. -/
def digitsValue (l : List Char) : Nat :=
  l.foldl (fun n c => 10 * n + (c.toNat - 48)) 0

/-- The operations of `Float64Ops` on the binary64 numbers of Lean.  `ParseFloat`
reads the notations `123` and `123.45`, the only ones that satisfy `\d+(\.\d+)?`, and
reports every other text as a syntax error. -/
def binary64Ops : Float64Ops Float where
  ParseFloat s :=
    let intPart := s.data.takeWhile isDigit
    match s.data.dropWhile isDigit with
    | [] =>
      if intPart = [] then .error "invalid syntax"
      else .ok (Float.ofNat (digitsValue intPart))
    | dot :: frac =>
      if dot.toNat = 46 ∧ intPart ≠ [] ∧ frac ≠ [] ∧ frac.all isDigit then
        .ok (Float.ofScientific (digitsValue (intPart ++ frac)) true frac.length)
      else .error "invalid syntax"
  ofInt := Float.ofInt
  mul := fun x y => x * y
  toInt64 := fun x =>
    if x < 0 then -(((-x).toUInt64.toNat : Nat) : Int) else ((x.toUInt64.toNat : Nat) : Int)

/-! ## Functions used to state the theorems -/

deriving instance DecidableEq for Except

/-- The entries that one iteration of `for _, numa := range numaNodes` appends to
`logProcs`, read off the loop: the loop values `lowBit..hiBit` that pass the guard,
each turned into a `LogicalProcessor`. -/
def numaLogProcs (cores : List GroupAffinity) (packages : List (List GroupAffinity))
    (numa : NumaNodeRelationship) : List LogicalProcessor :=
  match numa.GroupMasks with
  | [] => []
  | first :: _ =>
    ((forLoop (TrailingZeros (u64 first.Mask))
        (63 - (LeadingZeros (u64 first.Mask) : Int))).filter
      (fun lp => decide (u64 ((u64 first.Mask &&& 1) <<< lp) ≠ 0))).map
      (fun lp =>
        { ProcessorNumber := lp
          PhysicalProcessorNumber := matchingCore cores first.Group lp
          PhysicalPackageNumber := matchingPackage packages first.Group lp
          NumaNode := numa.NodeNumber
          ProcessorGroup := first.Group })

/-- The masks a record adds to `cores` in the first loop. -/
def coreMasksOf : SystemLogicalProcessorInformationEx → List GroupAffinity
  | .processor p => if p.Relationship = RelationProcessorCore then p.GroupMasks else []
  | .numa _ => []

/-- The record added to `numaNodes` in the first loop, if any. -/
def numaOf : SystemLogicalProcessorInformationEx → Option NumaNodeRelationship
  | .numa n => if n.Relationship = RelationNumaNode then some n else none
  | .processor _ => none

/-- The row added to `packages` in the first loop, if any. -/
def packageRowOf : SystemLogicalProcessorInformationEx → Option (List GroupAffinity)
  | .processor p =>
    if p.Relationship = RelationProcessorPackage then some p.GroupMasks else none
  | .numa _ => none

/-- The `PhysicalPackageNumber` of the last entry of `lps` whose
`PhysicalProcessorNumber` is `core`; `0` when there is none. -/
def lastPackageOf (lps : List LogicalProcessor) (core : Nat) : Nat :=
  lps.foldl (fun r l => if l.PhysicalProcessorNumber = core then l.PhysicalPackageNumber else r) 0

/-- Two decoded records do not both describe a NUMA node with the same group and a
common bit in their first group mask. -/
def numaDisjoint : SystemLogicalProcessorInformationEx →
    SystemLogicalProcessorInformationEx → Bool
  | .numa a, .numa b =>
    match a.GroupMasks, b.GroupMasks with
    | ma :: _, mb :: _ => decide (ma.Group = mb.Group → ma.Mask &&& mb.Mask = 0)
    | _, _ => true
  | _, _ => true

/-- Two logical processors share the processor group and the processor number. -/
def sameGroupAndNumber (x y : LogicalProcessor) : Prop :=
  x.ProcessorGroup = y.ProcessorGroup ∧ x.ProcessorNumber = y.ProcessorNumber

instance (x y : LogicalProcessor) : Decidable (sameGroupAndNumber x y) := by
  unfold sameGroupAndNumber; infer_instance

/-- The scenario of two NUMA nodes `{0,1}` (node 0) and `{2,3}` (node 1) in group 0,
one package `{0,1,2,3}` and the cores `{0,1}` and `{2,3}`. -/
def scenarioTwoNuma : List SystemLogicalProcessorInformationEx :=
  [ .numa ⟨1, 0, 1, [⟨3, 0⟩]⟩, .numa ⟨1, 1, 1, [⟨12, 0⟩]⟩,
    .processor ⟨2, 0, 0, 1, [⟨15, 0⟩]⟩,
    .processor ⟨0, 0, 0, 1, [⟨3, 0⟩]⟩, .processor ⟨0, 0, 0, 1, [⟨12, 0⟩]⟩ ]

/-- The relationship tag of the record at `off`. -/
def tagAt (mem : Nat → Nat) (off : Nat) : Nat := readU32 mem off

/-- The size declared by the record at `off`. -/
def sizeAt (mem : Nat → Nat) (off : Nat) : Nat := readU32 mem (off + 4)

/-- The group-mask count read by the parsers for the record at `off`. -/
def groupCountAt (mem : Nat → Nat) (off : Nat) : Nat := readU16 mem (off + 8 + 22)

/-- The relationships that one step of the walk appends for the record at `off`. -/
def decodeAt (mem : Nat → Nat) (off : Nat) : List SystemLogicalProcessorInformationEx :=
  (walkStep mem ⟨off, []⟩).relationships

/-- The bytes of a list, as a memory that reads 0 outside the list. -/
def recordMem (r : List Nat) : Nat → Nat := fun i => r.getD i 0

/-- The memory at `&buf[0]`: the bytes of `buf`, followed by the memory `behind` it. -/
def bufferMem (buf : List Nat) (behind : Nat → Nat) : Nat → Nat :=
  fun i => if i < buf.length then buf.getD i 0 else behind (i - buf.length)

/-- The tag is one of those the walk decodes. -/
def knownTag (tag : Nat) : Prop :=
  tag = RelationProcessorCore ∨ tag = RelationNumaNode ∨ tag = RelationProcessorPackage

instance (tag : Nat) : Decidable (knownTag tag) := by
  unfold knownTag; infer_instance

/-- A record of the extended format, given as its bytes: the 8-byte header is present,
the declared size is the byte length, and for a Core, NumaNode or Package tag the
24-byte relationship header and the `GroupCount` masks it announces lie inside the
record. -/
def WellFormedRecord (r : List Nat) : Prop :=
  8 ≤ r.length ∧ sizeAt (recordMem r) 0 = r.length ∧
    (knownTag (tagAt (recordMem r) 0) → 32 + 16 * groupCountAt (recordMem r) 0 ≤ r.length)

instance (r : List Nat) : Decidable (WellFormedRecord r) := by
  unfold WellFormedRecord; infer_instance

/-- Two memories agree on `len` bytes from `a1` and `a2` on. -/
def Agree (m1 m2 : Nat → Nat) (a1 a2 len : Nat) : Prop :=
  ∀ j, j < len → m1 (a1 + j) = m2 (a2 + j)

/-- An 8-byte record with the unknown tag 3 that declares the size 0. -/
def zeroSizeRecord : List Nat := [3, 0, 0, 0, 0, 0, 0, 0]

/-- A 32-byte Core record (flags 7, efficiency class 3, no group mask) that declares
the size 40. -/
def overrunningRecord : List Nat :=
  [0, 0, 0, 0, 40, 0, 0, 0, 7, 3, 0, 0, 0, 0, 0, 0,
   0, 0, 0, 0, 0, 0, 0, 0, 0, 0, 0, 0, 0, 0, 0, 0]

/-- A 32-byte Core record (flags 7, efficiency class 3) that declares the size 40 and
announces one group mask, which would start at offset 32, right behind the record. -/
def overreadingRecord : List Nat :=
  [0, 0, 0, 0, 40, 0, 0, 0, 7, 3, 0, 0, 0, 0, 0, 0,
   0, 0, 0, 0, 0, 0, 0, 0, 0, 0, 0, 0, 0, 0, 1, 0]

/-- The bytes that one step of the walk reads of the record at `off` lie inside a
buffer of `bufLen` bytes: the 8-byte header, and for a Core, NumaNode or Package tag
the 24-byte relationship header and the `GroupCount` masks it announces. -/
def ReadsInside (mem : Nat → Nat) (bufLen off : Nat) : Prop :=
  off + 8 ≤ bufLen ∧
    (knownTag (tagAt mem off) → off + 32 + 16 * groupCountAt mem off ≤ bufLen)

instance (mem : Nat → Nat) (bufLen off : Nat) : Decidable (ReadsInside mem bufLen off) := by
  unfold ReadsInside; infer_instance

/-- A 48-byte Core record: efficiency class 1, one group mask `{0,1}` of group 0. -/
def sampleCoreRecord : List Nat :=
  [0, 0, 0, 0, 48, 0, 0, 0, 0, 1, 0, 0, 0, 0, 0, 0,
   0, 0, 0, 0, 0, 0, 0, 0, 0, 0, 0, 0, 0, 0, 1, 0,
   3, 0, 0, 0, 0, 0, 0, 0, 0, 0, 0, 0, 0, 0, 0, 0]

/-- A 48-byte NumaNode record: node 0, one group mask `{0,1}` of group 0. -/
def sampleNumaRecord : List Nat :=
  [1, 0, 0, 0, 48, 0, 0, 0, 0, 0, 0, 0, 0, 0, 0, 0,
   0, 0, 0, 0, 0, 0, 0, 0, 0, 0, 0, 0, 0, 0, 1, 0,
   3, 0, 0, 0, 0, 0, 0, 0, 0, 0, 0, 0, 0, 0, 0, 0]

/-- A 16-byte record with the unknown tag 3 (a cache relationship) and 8 bytes of
payload. -/
def sampleUnknownRecord : List Nat :=
  [3, 0, 0, 0, 16, 0, 0, 0, 9, 9, 9, 9, 9, 9, 9, 9]

/-- The per-package identifier lookup: the entry of the WMI processor list at index
`pkg`, the empty string when `pkg` is out of range. -/
def packageIdLookup (ids : List Win32Processor) (pkg : Nat) : String :=
  match ids[pkg]? with
  | some v => v.ProcessorId
  | none => ""

/-- The binding a record adds to `coreEfficiencyMap` in the first loop when
`Windows10OrGreater` holds, if any. -/
def efficiencyEntryOf : SystemLogicalProcessorInformationEx → Option (GroupAffinity × Nat)
  | .processor p =>
    if p.Relationship = RelationProcessorCore then
      match p.GroupMasks with
      | [] => none
      | first :: _ => some (first, p.EfficiencyClass)
    else none
  | .numa _ => none

/-- A decoded record with the efficiency-class byte of a processor relationship
blanked. -/
def withoutEfficiency :
    SystemLogicalProcessorInformationEx → SystemLogicalProcessorInformationEx
  | .processor p => .processor { p with EfficiencyClass := 0 }
  | .numa n => .numa n

/-- The core at index `i` claims bit `lp` of group `g`. -/
def coreClaims (cores : List GroupAffinity) (g lp i : Nat) : Prop :=
  ∃ core, cores[i]? = some core ∧ core.Group = g ∧ core.Mask.testBit lp = true

/-- The package row at index `i` claims bit `lp` of group `g` through one of its group
masks. -/
def packageClaims (packages : List (List GroupAffinity)) (g lp i : Nat) : Prop :=
  ∃ row, packages[i]? = some row ∧ ∃ col ∈ row, col.Group = g ∧ col.Mask.testBit lp = true

/-- A processor identifier used to exercise `Processor`. -/
def sampleProcessorIdentifier : ProcessorIdentifier :=
  { vendor := "GenuineIntel"
    name := "Intel(R) Core(TM) i7-9700K CPU @ 3.60GHz"
    family := "6"
    model := "158"
    stepping := "13"
    processorID := ""
    identifier := "Intel64 Family 6 Model 158 Stepping 13"
    microarchitecture := ""
    is64bit := true
    frequency := 3600000000 }

/-- A 40-byte legacy buffer: one Core record with mask `{0,1}` followed by 8 stray
bytes. -/
def legacyBufferWithTail : List Nat :=
  [3, 0, 0, 0, 0, 0, 0, 0, 0, 0, 0, 0, 1, 0, 0, 0,
   0, 0, 0, 0, 0, 0, 0, 0, 0, 0, 0, 0, 0, 0, 0, 0,
   5, 5, 5, 5, 5, 5, 5, 5]

/-- The relation kept by the loop over `numaNodes` between the two maps and the
logical processors emitted so far. -/
def idMapsConsistent (pim : List (Nat × String)) (acc : Reconciled) : Prop :=
  ∀ k, ((∃ lp ∈ acc.logProcs, lp.PhysicalProcessorNumber = k) →
      mapGet "" acc.pkgCpuidMap k = mapGet "" pim (mapGet 0 acc.corePkgMap k)) ∧
    ((¬ ∃ lp ∈ acc.logProcs, lp.PhysicalProcessorNumber = k) →
      mapGet "" acc.pkgCpuidMap k = "" ∧ mapGet 0 acc.corePkgMap k = 0)

/-! ## Lemmas on the reconciliation -/

theorem foldl_numaBitStep_logProcs (cores : List GroupAffinity)
    (packages : List (List GroupAffinity)) (pim : List (Nat × String))
    (numa : NumaNodeRelationship) (g mask : Nat) :
    ∀ (l : List Nat) (acc : Reconciled),
      (l.foldl (numaBitStep cores packages pim numa g mask) acc).logProcs =
        acc.logProcs ++
          (l.filter (fun lp => decide (u64 ((mask &&& 1) <<< lp) ≠ 0))).map
            (fun lp =>
              { ProcessorNumber := lp
                PhysicalProcessorNumber := matchingCore cores g lp
                PhysicalPackageNumber := matchingPackage packages g lp
                NumaNode := numa.NodeNumber
                ProcessorGroup := g })
  | [], acc => by simp
  | lp :: rest, acc => by
    rw [List.foldl_cons, foldl_numaBitStep_logProcs cores packages pim numa g mask rest,
      List.filter_cons]
    unfold numaBitStep
    by_cases h : u64 ((mask &&& 1) <<< lp) = 0
    · simp only [h, if_true, ne_eq, not_true_eq_false, decide_False, Bool.false_eq_true,
        if_false]
    · simp only [h, if_false, ne_eq, not_false_eq_true, decide_True, if_true, List.map_cons,
        List.append_assoc, List.singleton_append]

theorem numaStep_logProcs {cores : List GroupAffinity}
    {packages : List (List GroupAffinity)} {pim : List (Nat × String)}
    {acc acc1 : Reconciled} {numa : NumaNodeRelationship}
    (h : numaStep cores packages pim acc numa = .ok acc1) :
    acc1.logProcs = acc.logProcs ++ numaLogProcs cores packages numa := by
  unfold numaStep at h
  unfold numaLogProcs
  cases hm : numa.GroupMasks with
  | nil => simp [hm] at h
  | cons first rest =>
    simp only [hm, Except.ok.injEq] at h
    rw [← h, foldl_numaBitStep_logProcs]

theorem reconcile_logProcs {cores : List GroupAffinity}
    {packages : List (List GroupAffinity)} {pim : List (Nat × String)} :
    ∀ (numas : List NumaNodeRelationship) {acc acc1 : Reconciled},
      reconcile cores packages pim acc numas = .ok acc1 →
      acc1.logProcs = acc.logProcs ++ (numas.map (numaLogProcs cores packages)).flatten
  | [], acc, acc1, h => by
    simp only [reconcile, Except.ok.injEq] at h
    simp [h]
  | numa :: rest, acc, acc1, h => by
    unfold reconcile at h
    cases hs : numaStep cores packages pim acc numa with
    | error e => simp [hs] at h
    | ok acc2 =>
      simp only [hs] at h
      rw [reconcile_logProcs rest h, numaStep_logProcs hs]
      simp [List.append_assoc]

theorem gatherStep_spec {w : Bool} {st st1 : Gathered}
    {info : SystemLogicalProcessorInformationEx}
    (h : gatherStep w st info = .ok st1) :
    st1.cores = st.cores ++ coreMasksOf info ∧
    st1.numaNodes = st.numaNodes ++ (numaOf info).toList ∧
    st1.packages = st.packages ++ (packageRowOf info).toList := by
  unfold gatherStep at h
  cases info with
  | processor p =>
    simp only [SystemLogicalProcessorInformationEx.GetRelationship, RelationProcessorCore,
      RelationNumaNode, RelationProcessorPackage] at h
    simp only [coreMasksOf, numaOf, packageRowOf, RelationProcessorCore,
      RelationProcessorPackage]
    by_cases h0 : p.Relationship = 0
    · simp only [h0, if_true] at h
      cases w with
      | false =>
        simp only [Bool.false_eq_true, if_false, Except.ok.injEq] at h
        subst h
        simp [h0]
      | true =>
        cases hg : p.GroupMasks with
        | nil => simp [hg] at h
        | cons first rest =>
          simp only [hg, if_true, Except.ok.injEq] at h
          subst h
          simp [h0, hg]
    · by_cases h1 : p.Relationship = 1
      · simp [h1] at h
      · by_cases h2 : p.Relationship = 2
        · simp only [h2, if_true, Except.ok.injEq] at h
          simp only [OfNat.ofNat_ne_zero, OfNat.ofNat_ne_one, if_false, Except.ok.injEq] at h
          subst h
          simp [h2]
        · simp only [h0, h1, h2, if_false, Except.ok.injEq] at h
          subst h
          simp [h0, h2]
  | numa n =>
    simp only [SystemLogicalProcessorInformationEx.GetRelationship, RelationProcessorCore,
      RelationNumaNode, RelationProcessorPackage] at h
    simp only [coreMasksOf, numaOf, packageRowOf, RelationNumaNode]
    by_cases h0 : n.Relationship = 0
    · simp [h0] at h
    · by_cases h1 : n.Relationship = 1
      · simp only [h1, one_ne_zero, if_true, if_false, Except.ok.injEq] at h
        subst h
        simp [h1]
      · by_cases h2 : n.Relationship = 2
        · simp [h2] at h
        · simp only [h0, h1, h2, if_false, Except.ok.injEq] at h
          subst h
          simp [h1]

theorem gather_spec {w : Bool} :
    ∀ (procInfo : List SystemLogicalProcessorInformationEx) {st st1 : Gathered},
      gather w st procInfo = .ok st1 →
      st1.cores = st.cores ++ (procInfo.map coreMasksOf).flatten ∧
      st1.numaNodes = st.numaNodes ++ procInfo.filterMap numaOf ∧
      st1.packages = st.packages ++ procInfo.filterMap packageRowOf
  | [], st, st1, h => by
    simp only [gather, Except.ok.injEq] at h
    simp [h]
  | info :: rest, st, st1, h => by
    unfold gather at h
    cases hs : gatherStep w st info with
    | error e => simp [hs] at h
    | ok st2 =>
      simp only [hs] at h
      obtain ⟨c1, n1, p1⟩ := gatherStep_spec hs
      obtain ⟨c2, n2, p2⟩ := gather_spec rest h
      refine ⟨?_, ?_, ?_⟩
      · rw [c2, c1]; simp [List.append_assoc]
      · rw [n2, n1]; cases hn : numaOf info <;> simp [List.filterMap_cons, hn]
      · rw [p2, p1]; cases hp : packageRowOf info <;> simp [List.filterMap_cons, hp]

theorem GetLogicalProcessorInformationEx_ok
    {procInfo : List SystemLogicalProcessorInformationEx} {w : Bool}
    {ids : List Win32Processor} {info : LogicalProcessorInformation}
    (h : GetLogicalProcessorInformationEx (.ok procInfo) w (.ok ids) = .ok info) :
    ∃ st acc, gather w ⟨[], [], [], []⟩ procInfo = .ok st ∧
      reconcile st.cores st.packages (processorIdMapOf ids) ⟨[], [], []⟩ st.numaNodes =
        .ok acc ∧
      info = { LogicalProcessors := acc.logProcs
               PhysicalProcessors :=
                 some (getPhysicalProcessors st.cores st.coreEfficiencyMap
                   acc.corePkgMap acc.pkgCpuidMap) } := by
  unfold GetLogicalProcessorInformationEx at h
  simp only at h
  cases hg : gather w ⟨[], [], [], []⟩ procInfo with
  | error e => simp [hg] at h
  | ok st =>
    simp only [hg] at h
    cases hr : reconcile st.cores st.packages (processorIdMapOf ids) ⟨[], [], []⟩
        st.numaNodes with
    | error e => simp [hr] at h
    | ok acc =>
      simp only [hr, Except.ok.injEq] at h
      exact ⟨st, acc, rfl, hr, h.symm⟩

theorem matchingCoreFrom_bounds (g lp : Nat) :
    ∀ (cores : List GroupAffinity) (i j : Nat),
      matchingCoreFrom g lp i cores = some j → i ≤ j ∧ j < i + cores.length
  | [], i, j, h => by simp [matchingCoreFrom] at h
  | core :: rest, i, j, h => by
    unfold matchingCoreFrom at h
    split_ifs at h with hc
    · simp only [Option.some.injEq] at h
      subst h
      simp
    · have := matchingCoreFrom_bounds g lp rest (i + 1) j h
      simp only [List.length_cons]
      omega

theorem matchingCore_lt_length (cores : List GroupAffinity) (g lp : Nat)
    (h : cores ≠ []) : matchingCore cores g lp < cores.length := by
  unfold matchingCore
  have hpos : 0 < cores.length := List.length_pos.mpr h
  cases hm : matchingCoreFrom g lp 0 cores with
  | none => simpa using hpos
  | some j =>
    have := matchingCoreFrom_bounds g lp cores 0 j hm
    simp only [Option.getD_some]
    omega

theorem exists_mem_getPhysicalProcessorsFrom (em : List (GroupAffinity × Nat))
    (cpm : List (Nat × Nat)) (pcm : List (Nat × String)) :
    ∀ (cores : List GroupAffinity) (i j : Nat), i ≤ j → j < i + cores.length →
      ∃ pp ∈ getPhysicalProcessorsFrom em cpm pcm i cores, pp.PhysicalProcessorNumber = j
  | [], i, j, h1, h2 => by simp at h2; omega
  | core :: rest, i, j, h1, h2 => by
    unfold getPhysicalProcessorsFrom
    by_cases hij : i = j
    · exact ⟨_, List.mem_cons_self _ _, hij⟩
    · simp only [List.length_cons] at h2
      obtain ⟨pp, hpp, hn⟩ :=
        exists_mem_getPhysicalProcessorsFrom em cpm pcm rest (i + 1) j (by omega) (by omega)
      exact ⟨pp, List.mem_cons_of_mem _ hpp, hn⟩

theorem package_of_mem_getPhysicalProcessorsFrom (em : List (GroupAffinity × Nat))
    (cpm : List (Nat × Nat)) (pcm : List (Nat × String)) :
    ∀ (cores : List GroupAffinity) (i : Nat) (pp : PhysicalProcessor),
      pp ∈ getPhysicalProcessorsFrom em cpm pcm i cores →
      pp.PhysicalPackageNumber = mapGet 0 cpm pp.PhysicalProcessorNumber
  | [], i, pp, h => by simp [getPhysicalProcessorsFrom] at h
  | core :: rest, i, pp, h => by
    unfold getPhysicalProcessorsFrom at h
    rcases List.mem_cons.mp h with h | h
    · rw [h]
    · exact package_of_mem_getPhysicalProcessorsFrom em cpm pcm rest (i + 1) pp h

theorem mem_numaLogProcs {cores : List GroupAffinity}
    {packages : List (List GroupAffinity)} {numa : NumaNodeRelationship}
    {x : LogicalProcessor} (h : x ∈ numaLogProcs cores packages numa) :
    ∃ first rest, numa.GroupMasks = first :: rest ∧
      u64 ((u64 first.Mask &&& 1) <<< x.ProcessorNumber) ≠ 0 ∧
      x.ProcessorGroup = first.Group ∧
      x.PhysicalProcessorNumber = matchingCore cores first.Group x.ProcessorNumber ∧
      x.PhysicalPackageNumber = matchingPackage packages first.Group x.ProcessorNumber ∧
      x.NumaNode = numa.NodeNumber := by
  unfold numaLogProcs at h
  cases hm : numa.GroupMasks with
  | nil => simp [hm] at h
  | cons first rest =>
    simp only [hm, List.mem_map, List.mem_filter, decide_eq_true_eq] at h
    obtain ⟨lp, ⟨_, hlp⟩, rfl⟩ := h
    exact ⟨first, rest, rfl, hlp, rfl, rfl, rfl, rfl⟩

theorem numaLogProcs_eq_nil_of_bit_zero_clear (cores : List GroupAffinity)
    (packages : List (List GroupAffinity)) (numa : NumaNodeRelationship)
    (first : GroupAffinity) (rest : List GroupAffinity)
    (hm : numa.GroupMasks = first :: rest) (hbit : u64 first.Mask % 2 = 0) :
    numaLogProcs cores packages numa = [] := by
  unfold numaLogProcs
  simp only [hm, Nat.and_one_is_mod, hbit, Nat.zero_shiftLeft]
  simp [u64]

theorem lastPackageOf_append_singleton (lps : List LogicalProcessor) (x : LogicalProcessor)
    (k : Nat) :
    lastPackageOf (lps ++ [x]) k =
      if x.PhysicalProcessorNumber = k then x.PhysicalPackageNumber
      else lastPackageOf lps k := by
  simp [lastPackageOf, List.foldl_append]

theorem foldl_numaBitStep_corePkgMap (cores : List GroupAffinity)
    (packages : List (List GroupAffinity)) (pim : List (Nat × String))
    (numa : NumaNodeRelationship) (g mask : Nat) :
    ∀ (l : List Nat) (acc : Reconciled),
      (∀ k, mapGet 0 acc.corePkgMap k = lastPackageOf acc.logProcs k) →
      ∀ k, mapGet 0 (l.foldl (numaBitStep cores packages pim numa g mask) acc).corePkgMap k =
        lastPackageOf (l.foldl (numaBitStep cores packages pim numa g mask) acc).logProcs k
  | [], acc, h => by simpa using h
  | lp :: rest, acc, h => by
    rw [List.foldl_cons]
    apply foldl_numaBitStep_corePkgMap cores packages pim numa g mask rest
    intro k
    unfold numaBitStep
    by_cases hz : u64 ((mask &&& 1) <<< lp) = 0
    · simp only [hz, if_true]
      exact h k
    · simp only [hz, if_false, lastPackageOf_append_singleton, mapSet, mapGet]
      by_cases hk : matchingCore cores g lp = k
      · simp only [hk, if_true]
      · simp only [hk, if_false]
        exact h k

theorem reconcile_corePkgMap {cores : List GroupAffinity}
    {packages : List (List GroupAffinity)} {pim : List (Nat × String)} :
    ∀ (numas : List NumaNodeRelationship) {acc acc1 : Reconciled},
      reconcile cores packages pim acc numas = .ok acc1 →
      (∀ k, mapGet 0 acc.corePkgMap k = lastPackageOf acc.logProcs k) →
      ∀ k, mapGet 0 acc1.corePkgMap k = lastPackageOf acc1.logProcs k
  | [], acc, acc1, h, hinv => by
    simp only [reconcile, Except.ok.injEq] at h
    rw [← h]; exact hinv
  | numa :: rest, acc, acc1, h, hinv => by
    unfold reconcile at h
    cases hs : numaStep cores packages pim acc numa with
    | error e => simp [hs] at h
    | ok acc2 =>
      simp only [hs] at h
      apply reconcile_corePkgMap rest h
      unfold numaStep at hs
      cases hm : numa.GroupMasks with
      | nil => simp [hm] at hs
      | cons first tl =>
        simp only [hm, Except.ok.injEq] at hs
        rw [← hs]
        exact foldl_numaBitStep_corePkgMap cores packages pim numa _ _ _ acc hinv

theorem lastPackageOf_of_agree (P k : Nat) :
    ∀ (lps : List LogicalProcessor) (r : Nat),
      (∀ l ∈ lps, l.PhysicalProcessorNumber = k → l.PhysicalPackageNumber = P) →
      (r = P ∨ ∃ l ∈ lps, l.PhysicalProcessorNumber = k) →
      lps.foldl (fun r l =>
        if l.PhysicalProcessorNumber = k then l.PhysicalPackageNumber else r) r = P
  | [], r, _, h => by
    rcases h with h | ⟨l, hl, _⟩
    · simpa using h
    · simp at hl
  | x :: rest, r, hall, h => by
    rw [List.foldl_cons]
    apply lastPackageOf_of_agree P k rest _
      (fun l hl => hall l (List.mem_cons_of_mem _ hl))
    by_cases hx : x.PhysicalProcessorNumber = k
    · left
      simp only [hx, if_true]
      exact hall x (List.mem_cons_self _ _) hx
    · simp only [hx, if_false]
      rcases h with h | ⟨l, hl, hk⟩
      · exact Or.inl h
      · rcases List.mem_cons.mp hl with hl | hl
        · exact absurd (hl ▸ hk) hx
        · exact Or.inr ⟨l, hl, hk⟩

theorem numaLogProcs_pairwise (cores : List GroupAffinity)
    (packages : List (List GroupAffinity)) (numa : NumaNodeRelationship) :
    (numaLogProcs cores packages numa).Pairwise (fun x y => ¬ sameGroupAndNumber x y) := by
  unfold numaLogProcs
  cases numa.GroupMasks with
  | nil => simp
  | cons first rest =>
    simp only
    rw [List.pairwise_map]
    apply List.Pairwise.filter
    unfold forLoop
    exact (List.pairwise_lt_range' _ _).imp
      (fun hlt hs => absurd hs.2 (Nat.ne_of_lt hlt))

theorem bit_zero_of_guard {mask lp : Nat} (h : u64 ((u64 mask &&& 1) <<< lp) ≠ 0) :
    mask % 2 = 1 := by
  have h1 : u64 mask &&& 1 ≠ 0 := by
    intro h0
    rw [h0] at h
    simp [u64] at h
  rw [Nat.and_one_is_mod] at h1
  unfold u64 at h1
  omega

theorem land_odd {a b : Nat} (ha : a % 2 = 1) (hb : b % 2 = 1) : a &&& b ≠ 0 := by
  intro h
  have := Nat.testBit_and a b 0
  rw [h] at this
  simp [Nat.testBit_zero, ha, hb] at this

/-! ## Lemmas on the record walk -/

theorem walkStep_eq (mem : Nat → Nat) (s : WalkState) :
    walkStep mem s =
      { off := s.off + sizeAt mem s.off
        relationships := s.relationships ++ decodeAt mem s.off } := by
  unfold decodeAt walkStep sizeAt
  simp only [List.nil_append]
  split_ifs <;> simp

theorem walkLoop_succ (mem : Nat → Nat) (bufLen rl fuel : Nat) (s : WalkState) :
    walkLoop mem bufLen rl (fuel + 1) s =
      if s.off < rl then
        if s.off < bufLen then walkLoop mem bufLen rl fuel (walkStep mem s)
        else some (.error (.panic "index out of range"))
      else some (.ok s.relationships) := rfl

theorem walkLoop_exit (mem : Nat → Nat) (bufLen rl fuel : Nat) (s : WalkState)
    (h : rl ≤ s.off) :
    walkLoop mem bufLen rl (fuel + 1) s = some (.ok s.relationships) := by
  rw [walkLoop_succ]
  simp [Nat.not_lt.mpr h]

theorem walkLoop_iterate (mem : Nat → Nat) (bufLen rl : Nat) (hlen : rl ≤ bufLen) :
    ∀ (n fuel : Nat) (s : WalkState),
      (∀ k, k < n → (Nat.iterate (walkStep mem) k s).off < rl) →
      walkLoop mem bufLen rl (fuel + n) s =
        walkLoop mem bufLen rl fuel (Nat.iterate (walkStep mem) n s)
  | 0, fuel, s, _ => rfl
  | n + 1, fuel, s, h => by
    have h0 : s.off < rl := h 0 (Nat.succ_pos n)
    have hb : s.off < bufLen := Nat.lt_of_lt_of_le h0 hlen
    rw [← Nat.add_assoc, walkLoop_succ]
    simp only [h0, hb, if_true]
    rw [walkLoop_iterate mem bufLen rl hlen n fuel (walkStep mem s)]
    · rfl
    · intro k hk
      exact h (k + 1) (Nat.succ_lt_succ hk)

theorem walkLoop_terminates_of_pos (mem : Nat → Nat) (bufLen rl : Nat) (hlen : rl ≤ bufLen)
    (hpos : ∀ off, off < rl → 0 < sizeAt mem off) :
    ∀ (d : Nat) (s : WalkState), rl - s.off ≤ d →
      ∃ rels, walkLoop mem bufLen rl (d + 1) s = some (.ok rels)
  | 0, s, h => ⟨_, walkLoop_exit mem bufLen rl 0 s (by omega)⟩
  | d + 1, s, h => by
    by_cases h0 : s.off < rl
    · have hb : s.off < bufLen := Nat.lt_of_lt_of_le h0 hlen
      rw [walkLoop_succ]
      simp only [h0, hb, if_true]
      apply walkLoop_terminates_of_pos mem bufLen rl hlen hpos d
      rw [walkStep_eq]
      have := hpos s.off h0
      simp only
      omega
    · exact ⟨_, walkLoop_exit mem bufLen rl (d + 1) s (by omega)⟩

theorem Agree.shift {m1 m2 : Nat → Nat} {a1 a2 len : Nat} (h : Agree m1 m2 a1 a2 len)
    (c len1 : Nat) (hc : c + len1 ≤ len) : Agree m1 m2 (a1 + c) (a2 + c) len1 := by
  intro j hj
  rw [Nat.add_assoc, Nat.add_assoc]
  exact h (c + j) (by omega)

theorem readU8_congr {m1 m2 : Nat → Nat} {a1 a2 len : Nat} (h : Agree m1 m2 a1 a2 len)
    (hl : 1 ≤ len) : readU8 m1 a1 = readU8 m2 a2 := by
  unfold readU8
  have := h 0 (by omega)
  simp only [Nat.add_zero] at this
  rw [this]

theorem readU16_congr {m1 m2 : Nat → Nat} {a1 a2 len : Nat} (h : Agree m1 m2 a1 a2 len)
    (hl : 2 ≤ len) : readU16 m1 a1 = readU16 m2 a2 := by
  unfold readU16
  rw [readU8_congr h (by omega), readU8_congr (h.shift 1 1 (by omega)) (Nat.le_refl 1)]

theorem readU32_congr {m1 m2 : Nat → Nat} {a1 a2 len : Nat} (h : Agree m1 m2 a1 a2 len)
    (hl : 4 ≤ len) : readU32 m1 a1 = readU32 m2 a2 := by
  unfold readU32
  rw [readU16_congr h (by omega), readU16_congr (h.shift 2 2 (by omega)) (Nat.le_refl 2)]

theorem readU64_congr {m1 m2 : Nat → Nat} {a1 a2 len : Nat} (h : Agree m1 m2 a1 a2 len)
    (hl : 8 ≤ len) : readU64 m1 a1 = readU64 m2 a2 := by
  unfold readU64
  rw [readU32_congr h (by omega), readU32_congr (h.shift 4 4 (by omega)) (Nat.le_refl 4)]

theorem readGroupAffinity_congr {m1 m2 : Nat → Nat} {a1 a2 len : Nat}
    (h : Agree m1 m2 a1 a2 len) (hl : 10 ≤ len) :
    readGroupAffinity m1 a1 = readGroupAffinity m2 a2 := by
  unfold readGroupAffinity
  rw [readU64_congr h (by omega), readU16_congr (h.shift 8 2 (by omega)) (Nat.le_refl 2)]

theorem unsafeSlice_congr {m1 m2 : Nat → Nat} {a1 a2 len : Nat} (n : Nat)
    (h : Agree m1 m2 a1 a2 len) (hl : 16 * n ≤ len) :
    unsafeSlice m1 a1 n = unsafeSlice m2 a2 n := by
  unfold unsafeSlice
  apply List.map_congr_left
  intro k hk
  have hk' : k < n := List.mem_range.mp hk
  exact readGroupAffinity_congr (h.shift (16 * k) 10 (by omega)) (Nat.le_refl 10)

theorem decodeAt_congr {m1 m2 : Nat → Nat} {o1 o2 len : Nat} (h : Agree m1 m2 o1 o2 len)
    (h8 : 8 ≤ len)
    (hfit : knownTag (tagAt m1 o1) → 32 + 16 * groupCountAt m1 o1 ≤ len) :
    decodeAt m1 o1 = decodeAt m2 o2 ∧ sizeAt m1 o1 = sizeAt m2 o2 := by
  have htag : readU32 m1 o1 = readU32 m2 o2 := readU32_congr h (by omega)
  have hsize : sizeAt m1 o1 = sizeAt m2 o2 :=
    readU32_congr (h.shift 4 4 (by omega)) (Nat.le_refl 4)
  refine ⟨?_, hsize⟩
  by_cases hk : knownTag (tagAt m1 o1)
  · have hlen := hfit hk
    have hgc : readU16 m1 (o1 + 8 + 22) = readU16 m2 (o2 + 8 + 22) := by
      rw [Nat.add_assoc, Nat.add_assoc]
      exact readU16_congr (h.shift (8 + 22) 2 (by omega)) (Nat.le_refl 2)
    have hslice : unsafeSlice m1 (o1 + 8 + 24) (readU16 m1 (o1 + 8 + 22)) =
        unsafeSlice m2 (o2 + 8 + 24) (readU16 m1 (o1 + 8 + 22)) := by
      rw [Nat.add_assoc, Nat.add_assoc]
      exact unsafeSlice_congr _ (h.shift (8 + 24) (16 * groupCountAt m1 o1)
        (by omega)) (Nat.le_refl _)
    have hf : readU8 m1 (o1 + 8) = readU8 m2 (o2 + 8) :=
      readU8_congr (h.shift 8 1 (by omega)) (Nat.le_refl 1)
    have he : readU8 m1 (o1 + 8 + 1) = readU8 m2 (o2 + 8 + 1) := by
      rw [Nat.add_assoc, Nat.add_assoc]
      exact readU8_congr (h.shift (8 + 1) 1 (by omega)) (Nat.le_refl 1)
    have hn : readU32 m1 (o1 + 8) = readU32 m2 (o2 + 8) :=
      readU32_congr (h.shift 8 4 (by omega)) (Nat.le_refl 4)
    unfold decodeAt walkStep parseProcessorRelationship parseNumaRelationship
    simp only [← htag, hslice, ← hgc, ← hf, ← he, ← hn]
  · unfold decodeAt walkStep
    have hk2 : ¬ knownTag (readU32 m2 o2) := by rw [← htag]; exact hk
    unfold tagAt knownTag at hk
    unfold knownTag at hk2
    simp only [not_or] at hk hk2
    simp [hk.1, hk.2.1, hk.2.2, hk2.1, hk2.2.1, hk2.2.2]

theorem walkLoop_records (mem : Nat → Nat) (bufLen rl : Nat) (hlen : rl ≤ bufLen) :
    ∀ (rs : List (List Nat)) (off fuel : Nat)
      (acc : List SystemLogicalProcessorInformationEx),
      (∀ r ∈ rs, WellFormedRecord r) →
      Agree (recordMem rs.flatten) mem 0 off rs.flatten.length →
      rl = off + rs.flatten.length → rs.length + 1 ≤ fuel →
      walkLoop mem bufLen rl fuel ⟨off, acc⟩ =
        some (.ok (acc ++ (rs.map (fun r => decodeAt (recordMem r) 0)).flatten))
  | [], off, fuel, acc, _, _, hrl, hfuel => by
    obtain ⟨f, rfl⟩ : ∃ f, fuel = f + 1 := ⟨fuel - 1, by simp at hfuel; omega⟩
    rw [walkLoop_exit _ _ _ _ _ (by simp at hrl; simp [hrl])]
    simp
  | r :: rest, off, fuel, acc, hwf, hag, hrl, hfuel => by
    obtain ⟨f, rfl⟩ : ∃ f, fuel = f + 1 := ⟨fuel - 1, by simp at hfuel; omega⟩
    obtain ⟨h8, hsize, hfit⟩ := hwf r (List.mem_cons_self _ _)
    simp only [List.flatten_cons, List.length_append] at hag hrl
    have hagr : Agree (recordMem r) mem 0 off r.length := by
      intro j hj
      rw [← hag j (by omega)]
      simp only [recordMem, Nat.zero_add]
      exact (List.getD_append _ _ _ _ hj).symm
    obtain ⟨hdec, hsz⟩ := decodeAt_congr hagr h8 hfit
    have h0 : off < rl := by omega
    have hb : off < bufLen := Nat.lt_of_lt_of_le h0 hlen
    rw [walkLoop_succ]
    simp only [h0, hb, if_true]
    rw [walkStep_eq]
    simp only [← hsz, ← hdec, hsize]
    rw [walkLoop_records mem bufLen rl hlen rest (off + r.length) f _
      (fun x hx => hwf x (List.mem_cons_of_mem _ hx)) ?_ (by omega)
      (by simp only [List.length_cons] at hfuel; omega)]
    · simp [List.append_assoc]
    · intro j hj
      rw [Nat.add_assoc, ← hag (r.length + j) (by omega)]
      simp only [recordMem, Nat.zero_add]
      rw [List.getD_append_right _ _ _ _ (Nat.le_add_right _ _), Nat.add_sub_cancel_left]

theorem agree_bufferMem (buf : List Nat) (behind : Nat → Nat) :
    Agree (recordMem buf) (bufferMem buf behind) 0 0 buf.length := by
  intro j hj
  simp [recordMem, bufferMem, hj]

theorem decodeAt_unknown (mem : Nat → Nat) (off : Nat) (h : ¬ knownTag (tagAt mem off)) :
    decodeAt mem off = [] := by
  unfold tagAt knownTag at h
  simp only [not_or] at h
  unfold decodeAt walkStep
  simp [h.1, h.2.1, h.2.2]

theorem walkLoop_zeroSizeRecord :
    ∀ fuel, walkLoop (bufferMem zeroSizeRecord (fun _ => 0)) 8 8 fuel ⟨0, []⟩ = none
  | 0 => rfl
  | fuel + 1 => by
    have hstep : walkStep (bufferMem zeroSizeRecord (fun _ => 0)) ⟨0, []⟩ = ⟨0, []⟩ := by
      decide
    rw [walkLoop_succ]
    simp only [Nat.zero_lt_succ, if_true, hstep]
    exact walkLoop_zeroSizeRecord fuel

theorem walkStep_congr_inside (mem mem2 : Nat → Nat) (bufLen : Nat)
    (hsame : ∀ i, i < bufLen → mem2 i = mem i) (s : WalkState)
    (hin : ReadsInside mem bufLen s.off) :
    walkStep mem2 s = walkStep mem s ∧ sizeAt mem2 s.off = sizeAt mem s.off := by
  have hag : Agree mem mem2 s.off s.off (bufLen - s.off) :=
    fun j hj => (hsame (s.off + j) (by omega)).symm
  obtain ⟨hd, hs⟩ := decodeAt_congr hag (by have := hin.1; omega)
    (fun hk => by have := hin.2 hk; omega)
  rw [walkStep_eq, walkStep_eq, hd, hs]
  exact ⟨rfl, rfl⟩

theorem iterate_walkStep_congr_inside (mem mem2 : Nat → Nat) (bufLen n : Nat)
    (hsame : ∀ i, i < bufLen → mem2 i = mem i) (s : WalkState)
    (hin : ∀ k, k ≤ n → ReadsInside mem bufLen (Nat.iterate (walkStep mem) k s).off) :
    ∀ k, k ≤ n + 1 → Nat.iterate (walkStep mem2) k s = Nat.iterate (walkStep mem) k s
  | 0, _ => rfl
  | k + 1, hk => by
    rw [Function.iterate_succ_apply', Function.iterate_succ_apply',
      iterate_walkStep_congr_inside mem mem2 bufLen n hsame s hin k (by omega)]
    exact (walkStep_congr_inside mem mem2 bufLen hsame _ (hin k (by omega))).1

theorem walkLoop_overrun (mem : Nat → Nat) (bufLen lpiExRl n fuel : Nat)
    (hlen : lpiExRl ≤ bufLen)
    (hreach : ∀ k, k ≤ n → (Nat.iterate (walkStep mem) k ⟨0, []⟩).off < lpiExRl)
    (hover : lpiExRl < (Nat.iterate (walkStep mem) n ⟨0, []⟩).off +
      sizeAt mem (Nat.iterate (walkStep mem) n ⟨0, []⟩).off)
    (hfuel : n + 2 ≤ fuel) :
    walkLoop mem bufLen lpiExRl fuel ⟨0, []⟩ =
      some (.ok (Nat.iterate (walkStep mem) (n + 1) ⟨0, []⟩).relationships) := by
  obtain ⟨f, rfl⟩ : ∃ f, fuel = (f + 1) + (n + 1) := ⟨fuel - (n + 2), by omega⟩
  rw [walkLoop_iterate mem bufLen lpiExRl hlen (n + 1) (f + 1) ⟨0, []⟩
    (fun k hk => hreach k (Nat.lt_succ_iff.mp hk))]
  apply walkLoop_exit
  rw [Function.iterate_succ_apply', walkStep_eq]
  exact Nat.le_of_lt hover

theorem walkLoop_overreadingRecord :
    walkLoop (bufferMem overreadingRecord (fun _ => 0)) 32 32 2 ⟨0, []⟩ =
      some (.ok [.processor ⟨0, 7, 3, 1, [⟨0, 0⟩]⟩]) ∧
    walkLoop (bufferMem overreadingRecord (fun _ => 255)) 32 32 2 ⟨0, []⟩ =
      some (.ok [.processor ⟨0, 7, 3, 1, [⟨18446744073709551615, 65535⟩]⟩]) := by
  constructor <;> rfl

theorem perm_pair {α : Type} (a b : α) (l : List α) (h : l.Perm [a, b]) :
    l = [a, b] ∨ l = [b, a] := by
  have := List.mem_permutations.mpr h
  simp [List.permutations, List.permutationsAux, List.permutationsAux.rec] at this
  tauto

theorem perm_triple {α : Type} (a b c : α) (l : List α) (h : l.Perm [a, b, c]) :
    l = [a, b, c] ∨ l = [a, c, b] ∨ l = [b, a, c] ∨ l = [b, c, a] ∨ l = [c, a, b] ∨
      l = [c, b, a] := by
  have := List.mem_permutations.mpr h
  simp [List.permutations, List.permutationsAux, List.permutationsAux.rec] at this
  tauto

theorem forLoop_mask_one :
    forLoop (TrailingZeros 1) (63 - (LeadingZeros 1 : Int)) = [0] := by
  decide

theorem legacyCoreLoop_zero_masks (pk : List Nat) :
    ∀ (ms : List Nat) (core : Nat) (acc : List LogicalProcessor),
      (∀ m ∈ ms, m = 0) → legacyCoreLoop pk core ms acc = acc
  | [], _, _, _ => rfl
  | m :: rest, core, acc, h => by
    have hm : m = 0 := h m (List.mem_cons_self _ _)
    subst hm
    have hloop : forLoop (TrailingZeros (u64 0)) (63 - (LeadingZeros (u64 0) : Int)) = [] := by
      decide
    simp only [legacyCoreLoop, hloop, List.foldl_nil]
    exact legacyCoreLoop_zero_masks pk rest (core + 1) acc
      (fun x hx => h x (List.mem_cons_of_mem _ hx))

theorem legacyGather_coreMaskList (procInfo : List ProcessorCore) :
    ∀ (st : LegacyMasks), (∀ m ∈ st.coreMaskList, m = 0) →
      ∀ m ∈ (procInfo.foldl legacyGatherStep st).coreMaskList, m = 0 := by
  induction procInfo with
  | nil => intro st h; simpa using h
  | cons info rest ih =>
    intro st h
    rw [List.foldl_cons]
    apply ih
    unfold legacyGatherStep
    simp only [ProcessorCore.GetProcessorMask, RelationProcessorPackage,
      RelationProcessorCore]
    split_ifs with h1 h2
    · exact h
    · intro m hm
      simp only [List.mem_append, List.mem_singleton] at hm
      rcases hm with hm | hm
      · exact h m hm
      · rw [hm, h2]
    · exact h

/-! ## The claims on the topology decoding -/

/-- C1 (the code departs from the claim): on the scenario of two NUMA records `{0,1}`
and `{2,3}` in group 0, one package `{0,1,2,3}` and cores `{0,1}`, `{2,3}`,
`GetLogicalProcessorInformationEx` returns two logical processors, not four: the bits
2 and 3 of the second NUMA record are dropped, because the guard
`(mask & 1 << lp) == 0` tests bit 0 of the mask. -/
theorem C1_scenario_yields_two_logical_processors (w : Bool) (ids : List Win32Processor) :
    ∃ info pps,
      GetLogicalProcessorInformationEx (.ok scenarioTwoNuma) w (.ok ids) = .ok info ∧
      info.LogicalProcessors = [⟨0, 0, 0, 0, 0⟩, ⟨1, 0, 0, 0, 0⟩] ∧
      info.PhysicalProcessors = some pps ∧ pps.length = 2 := by
  cases w <;> exact ⟨_, _, rfl, rfl, rfl, rfl⟩

/-- C2 (counterexample): one Package record and one Core record, both with the
single-bit mask `{0}` of group 0, give no logical processor at all. -/
theorem C2_counterexample :
    GetLogicalProcessorInformationEx
      (.ok [.processor ⟨2, 0, 0, 1, [⟨1, 0⟩]⟩, .processor ⟨0, 0, 0, 1, [⟨1, 0⟩]⟩])
      true (.ok [⟨"BFEBFBFF000906EA"⟩]) =
      .ok ⟨[], some [⟨0, 0, 0, ""⟩]⟩ := by
  rfl

/-- C2 (amended): for one Package record `p` and one Core record `c`, both with the
single-bit mask `2 ^ b` of group `g`, in either order, the result has no logical
processor and exactly one physical processor, with core index 0 and package index 0;
logical processors come from NUMA records only.  With a NUMA record added whose first
mask is bit 0 of the same group (and `b = 0`), in any order, the result has exactly one
logical processor and one physical processor, both with core index 0 and package
index 0. -/
theorem C2_single_package_single_core (p c : ProcessorRelationship) (b g : Nat)
    (w : Bool) (ids : List Win32Processor)
    (hp : p.Relationship = RelationProcessorPackage)
    (hc : c.Relationship = RelationProcessorCore)
    (hpm : p.GroupMasks = [⟨2 ^ b, g⟩]) (hcm : c.GroupMasks = [⟨2 ^ b, g⟩]) :
    (∀ recs : List SystemLogicalProcessorInformationEx,
      recs.Perm [.processor p, .processor c] →
      GetLogicalProcessorInformationEx (.ok recs) w (.ok ids) =
        .ok ⟨[], some [⟨0, 0, if w then c.EfficiencyClass else 0, ""⟩]⟩) ∧
    (b = 0 → ∀ (n : NumaNodeRelationship) (rest : List GroupAffinity)
      (recs : List SystemLogicalProcessorInformationEx),
      n.Relationship = RelationNumaNode → n.GroupMasks = ⟨1, g⟩ :: rest →
      recs.Perm [.processor p, .processor c, .numa n] →
      GetLogicalProcessorInformationEx (.ok recs) w (.ok ids) =
        .ok ⟨[⟨0, 0, 0, n.NodeNumber, g⟩],
          some [⟨0, 0, if w then c.EfficiencyClass else 0,
            mapGet "" (processorIdMapOf ids) 0⟩]⟩) := by
  simp only [RelationProcessorPackage, RelationProcessorCore] at hp hc
  constructor
  · intro recs hperm
    rcases perm_pair _ _ _ hperm with h | h <;> subst h <;> cases w <;>
      simp [GetLogicalProcessorInformationEx, gather, gatherStep,
        SystemLogicalProcessorInformationEx.GetRelationship, RelationProcessorCore,
        RelationNumaNode, RelationProcessorPackage, hp, hc, hpm, hcm, reconcile,
        getPhysicalProcessors, getPhysicalProcessorsFrom, mapGet, mapSet]
  · intro hb n rest recs hn hnm hperm
    subst hb
    simp only [RelationNumaNode] at hn
    have hu : u64 1 = 1 := by decide
    rcases perm_triple _ _ _ _ hperm with h | h | h | h | h | h <;> subst h <;>
      cases w <;>
      simp [GetLogicalProcessorInformationEx, gather, gatherStep,
        SystemLogicalProcessorInformationEx.GetRelationship, RelationProcessorCore,
        RelationNumaNode, RelationProcessorPackage, hp, hc, hn, hpm, hcm, hnm, reconcile,
        numaStep, forLoop_mask_one, numaBitStep, hu, matchingCore, matchingCoreFrom,
        matchingPackage, matchingPackageFrom, rowMatches,
        getPhysicalProcessors, getPhysicalProcessorsFrom, mapGet, mapSet]

/-- C2 (witness): the amended statement at bit 0 of group 1 on Windows 10 or later,
with the Core record first, and with a NUMA record of node 4 put in front. -/
theorem C2_single_package_single_core_witness :
    GetLogicalProcessorInformationEx
        (.ok [.processor ⟨0, 0, 7, 1, [⟨1, 1⟩]⟩, .processor ⟨2, 0, 0, 1, [⟨1, 1⟩]⟩])
        true (.ok [⟨"BFEBFBFF000906EA"⟩]) =
      .ok ⟨[], some [⟨0, 0, 7, ""⟩]⟩ ∧
    GetLogicalProcessorInformationEx
        (.ok [.numa ⟨1, 4, 1, [⟨1, 1⟩]⟩, .processor ⟨0, 0, 7, 1, [⟨1, 1⟩]⟩,
          .processor ⟨2, 0, 0, 1, [⟨1, 1⟩]⟩])
        true (.ok [⟨"BFEBFBFF000906EA"⟩]) =
      .ok ⟨[⟨0, 0, 0, 4, 1⟩], some [⟨0, 0, 7, "BFEBFBFF000906EA"⟩]⟩ :=
  ⟨(C2_single_package_single_core ⟨2, 0, 0, 1, [⟨1, 1⟩]⟩ ⟨0, 0, 7, 1, [⟨1, 1⟩]⟩ 0 1
      true [⟨"BFEBFBFF000906EA"⟩] rfl rfl rfl rfl).1 _ (List.Perm.swap _ _ _),
    (C2_single_package_single_core ⟨2, 0, 0, 1, [⟨1, 1⟩]⟩ ⟨0, 0, 7, 1, [⟨1, 1⟩]⟩ 0 1
      true [⟨"BFEBFBFF000906EA"⟩] rfl rfl rfl rfl).2 rfl ⟨1, 4, 1, [⟨1, 1⟩]⟩ [] _ rfl rfl
      (by decide)⟩

/-- C3 (the code departs from the claim): `GetLogicalProcessorInformation` returns an
empty `LogicalProcessors` list for every list of legacy records, whatever the number
of set bits in the core masks: the first loop switches on `info.GetProcessorMask()`
instead of the relationship, so `coreMaskList` only ever receives masks equal to
`RelationProcessorCore = 0`, which have no set bit. -/
theorem C3_legacy_result_has_no_logical_processor (procInfo : List ProcessorCore) :
    GetLogicalProcessorInformation (.ok procInfo) =
      .ok { LogicalProcessors := [], PhysicalProcessors := none } := by
  unfold GetLogicalProcessorInformation
  simp only
  rw [legacyCoreLoop_zero_masks _ _ _ _
    (legacyGather_coreMaskList procInfo ⟨[], []⟩ (by simp))]

/-- C4 (counterexample): a single NUMA record with mask `{0}` and no Core record gives
a logical processor with core index 0 and an empty `PhysicalProcessors` list. -/
theorem C4_counterexample :
    GetLogicalProcessorInformationEx (.ok [.numa ⟨1, 0, 1, [⟨1, 0⟩]⟩]) false
      (.ok [⟨"BFEBFBFF000906EA"⟩]) =
      .ok ⟨[⟨0, 0, 0, 0, 0⟩], some []⟩ := by
  rfl

/-- C4 (amended): when the decoded records contain a Core record with at least one
group mask, every logical processor of the result has a `PhysicalProcessorNumber` that
is the `PhysicalProcessorNumber` of some entry of the returned `PhysicalProcessors`. -/
theorem C4_core_reference_present (procInfo : List SystemLogicalProcessorInformationEx)
    (w : Bool) (ids : List Win32Processor) (info : LogicalProcessorInformation)
    (h : GetLogicalProcessorInformationEx (.ok procInfo) w (.ok ids) = .ok info)
    (hcore : ∃ c, .processor c ∈ procInfo ∧ c.Relationship = RelationProcessorCore ∧
      c.GroupMasks ≠ []) :
    ∃ pps, info.PhysicalProcessors = some pps ∧
      ∀ lp ∈ info.LogicalProcessors,
        ∃ pp ∈ pps, pp.PhysicalProcessorNumber = lp.PhysicalProcessorNumber := by
  obtain ⟨st, acc, hg, hr, rfl⟩ := GetLogicalProcessorInformationEx_ok h
  refine ⟨_, rfl, ?_⟩
  intro lp hlp
  have hcores : st.cores ≠ [] := by
    obtain ⟨c, hmem, hrel, hne⟩ := hcore
    rw [(gather_spec procInfo hg).1]
    simp only [List.nil_append, ne_eq, List.flatten_eq_nil_iff, List.mem_map,
      forall_exists_index, and_imp, forall_apply_eq_imp_iff₂, not_forall]
    exact ⟨_, hmem, by simpa [coreMasksOf, hrel] using hne⟩
  simp only [reconcile_logProcs _ hr, List.nil_append, List.mem_flatten, List.mem_map,
    exists_exists_and_eq_and] at hlp
  obtain ⟨numa, _, hx⟩ := hlp
  obtain ⟨first, rest, _, _, _, hcoreId, _, _⟩ := mem_numaLogProcs hx
  rw [hcoreId]
  exact exists_mem_getPhysicalProcessorsFrom _ _ _ st.cores 0 _ (Nat.zero_le _)
    (by simpa using matchingCore_lt_length st.cores first.Group lp.ProcessorNumber hcores)

/-- C4 (witness): the amended statement on the two-NUMA scenario, whose result has the
logical processors 0 and 1 of core 0 and the physical processors 0 and 1. -/
theorem C4_core_reference_present_witness :
    GetLogicalProcessorInformationEx (.ok scenarioTwoNuma) true
        (.ok [⟨"BFEBFBFF000906EA"⟩]) =
      .ok ⟨[⟨0, 0, 0, 0, 0⟩, ⟨1, 0, 0, 0, 0⟩],
        some [⟨0, 0, 0, "BFEBFBFF000906EA"⟩, ⟨0, 1, 0, ""⟩]⟩ ∧
    ∃ pps,
      (⟨[⟨0, 0, 0, 0, 0⟩, ⟨1, 0, 0, 0, 0⟩],
        some [⟨0, 0, 0, "BFEBFBFF000906EA"⟩, ⟨0, 1, 0, ""⟩]⟩ :
          LogicalProcessorInformation).PhysicalProcessors = some pps ∧
      ∀ lp ∈ [(⟨0, 0, 0, 0, 0⟩ : LogicalProcessor), ⟨1, 0, 0, 0, 0⟩],
        ∃ pp ∈ pps, pp.PhysicalProcessorNumber = lp.PhysicalProcessorNumber :=
  ⟨rfl, C4_core_reference_present scenarioTwoNuma true [⟨"BFEBFBFF000906EA"⟩] _ rfl
    ⟨⟨0, 0, 0, 1, [⟨3, 0⟩]⟩, by decide, rfl, by decide⟩⟩

/-- C5 (counterexample): core `{0}`, packages `{0}` and `{1}`, one NUMA record `{0,1}`.
Bit 1 belongs to no core and falls back to core index 0, so the logical processor 0
(core 0, package 0) refers to a physical processor 0 whose package number is 1. -/
theorem C5_counterexample :
    GetLogicalProcessorInformationEx
      (.ok [.processor ⟨0, 0, 0, 1, [⟨1, 0⟩]⟩, .processor ⟨2, 0, 0, 1, [⟨1, 0⟩]⟩,
        .processor ⟨2, 0, 0, 1, [⟨2, 0⟩]⟩, .numa ⟨1, 0, 1, [⟨3, 0⟩]⟩])
      false (.ok []) =
      .ok ⟨[⟨0, 0, 0, 0, 0⟩, ⟨1, 0, 1, 0, 0⟩], some [⟨1, 0, 0, ""⟩]⟩ := by
  rfl

/-- C5 (amended): a physical processor whose number is the `PhysicalProcessorNumber`
of a logical processor `lp` has the `PhysicalPackageNumber` of the last logical
processor in the list with that core number; it equals `lp.PhysicalPackageNumber`
whenever all logical processors with that core number carry the same package number. -/
theorem C5_package_of_referenced_core
    (procInfo : List SystemLogicalProcessorInformationEx) (w : Bool)
    (ids : List Win32Processor) (info : LogicalProcessorInformation)
    (h : GetLogicalProcessorInformationEx (.ok procInfo) w (.ok ids) = .ok info)
    (lp : LogicalProcessor) (hlp : lp ∈ info.LogicalProcessors)
    (pps : List PhysicalProcessor) (hpps : info.PhysicalProcessors = some pps)
    (pp : PhysicalProcessor) (hpp : pp ∈ pps)
    (hnum : pp.PhysicalProcessorNumber = lp.PhysicalProcessorNumber) :
    pp.PhysicalPackageNumber =
        lastPackageOf info.LogicalProcessors lp.PhysicalProcessorNumber ∧
      ((∀ l ∈ info.LogicalProcessors,
          l.PhysicalProcessorNumber = lp.PhysicalProcessorNumber →
          l.PhysicalPackageNumber = lp.PhysicalPackageNumber) →
        pp.PhysicalPackageNumber = lp.PhysicalPackageNumber) := by
  obtain ⟨st, acc, hg, hr, rfl⟩ := GetLogicalProcessorInformationEx_ok h
  simp only [Option.some.injEq] at hpps
  subst hpps
  have hlast : pp.PhysicalPackageNumber =
      lastPackageOf acc.logProcs lp.PhysicalProcessorNumber := by
    rw [package_of_mem_getPhysicalProcessorsFrom _ _ _ _ _ _ hpp, hnum]
    exact reconcile_corePkgMap _ hr (fun k => rfl) _
  refine ⟨hlast, fun hall => ?_⟩
  rw [hlast]
  exact lastPackageOf_of_agree _ _ _ 0 hall (Or.inr ⟨lp, hlp, rfl⟩)

/-- C5 (witness): the amended statement on core `{0}`, packages `{0}` and `{1}` and
one NUMA record `{0,1}`, at logical processor 1 (core 0, package 1), the last one of
core 0, and physical processor 0 (package 1). -/
theorem C5_package_of_referenced_core_witness :
    GetLogicalProcessorInformationEx
        (.ok [.processor ⟨0, 0, 0, 1, [⟨1, 0⟩]⟩, .processor ⟨2, 0, 0, 1, [⟨1, 0⟩]⟩,
          .processor ⟨2, 0, 0, 1, [⟨2, 0⟩]⟩, .numa ⟨1, 0, 1, [⟨3, 0⟩]⟩])
        true (.ok [⟨"BFEBFBFF000906EA"⟩]) =
      .ok ⟨[⟨0, 0, 0, 0, 0⟩, ⟨1, 0, 1, 0, 0⟩], some [⟨1, 0, 0, ""⟩]⟩ ∧
    ((1 : Nat) = lastPackageOf [⟨0, 0, 0, 0, 0⟩, ⟨1, 0, 1, 0, 0⟩] 0 ∧
      ((∀ l ∈ [(⟨0, 0, 0, 0, 0⟩ : LogicalProcessor), ⟨1, 0, 1, 0, 0⟩],
          l.PhysicalProcessorNumber = 0 → l.PhysicalPackageNumber = 1) →
        (1 : Nat) = 1)) :=
  ⟨rfl, C5_package_of_referenced_core
    [.processor ⟨0, 0, 0, 1, [⟨1, 0⟩]⟩, .processor ⟨2, 0, 0, 1, [⟨1, 0⟩]⟩,
      .processor ⟨2, 0, 0, 1, [⟨2, 0⟩]⟩, .numa ⟨1, 0, 1, [⟨3, 0⟩]⟩]
    true [⟨"BFEBFBFF000906EA"⟩]
    ⟨[⟨0, 0, 0, 0, 0⟩, ⟨1, 0, 1, 0, 0⟩], some [⟨1, 0, 0, ""⟩]⟩
    rfl ⟨1, 0, 1, 0, 0⟩ (by decide) _ rfl ⟨1, 0, 0, ""⟩ (by decide) rfl⟩

/-- C6 (counterexample): two NUMA records with the same mask `{0}` of group 0 give two
logical processors with processor group 0 and processor number 0. -/
theorem C6_counterexample :
    GetLogicalProcessorInformationEx
      (.ok [.numa ⟨1, 0, 1, [⟨1, 0⟩]⟩, .numa ⟨1, 1, 1, [⟨1, 0⟩]⟩]) false (.ok []) =
      .ok ⟨[⟨0, 0, 0, 0, 0⟩, ⟨0, 0, 0, 1, 0⟩], some []⟩ := by
  rfl

/-- C6 (amended): when no two NUMA records of the input have first group masks of the
same group with a bit in common, no two entries of the returned `LogicalProcessors`
share both the processor group and the processor number. -/
theorem C6_processor_numbers_distinct_per_group
    (procInfo : List SystemLogicalProcessorInformationEx) (w : Bool)
    (ids : List Win32Processor) (info : LogicalProcessorInformation)
    (h : GetLogicalProcessorInformationEx (.ok procInfo) w (.ok ids) = .ok info)
    (hdisj : procInfo.Pairwise (fun x y => numaDisjoint x y = true)) :
    info.LogicalProcessors.Pairwise (fun x y => ¬ sameGroupAndNumber x y) := by
  obtain ⟨st, acc, hg, hr, rfl⟩ := GetLogicalProcessorInformationEx_ok h
  simp only [reconcile_logProcs _ hr, List.nil_append, (gather_spec procInfo hg).2.1]
  rw [List.pairwise_flatten]
  refine ⟨?_, ?_⟩
  · intro l hl
    obtain ⟨numa, _, rfl⟩ := List.mem_map.mp hl
    exact numaLogProcs_pairwise _ _ _
  · rw [List.pairwise_map, List.pairwise_filterMap]
    refine hdisj.imp ?_
    intro a a' hd b hb b' hb' x hx y hy hs
    obtain ⟨fx, rx, hgx, hbx, hgrx, _⟩ := mem_numaLogProcs hx
    obtain ⟨fy, ry, hgy, hby, hgry, _⟩ := mem_numaLogProcs hy
    cases a with
    | processor p => simp [numaOf] at hb
    | numa na =>
      cases a' with
      | processor p => simp [numaOf] at hb'
      | numa nb =>
        simp only [numaOf, Option.mem_def, Option.ite_none_right_eq_some,
          Option.some.injEq] at hb hb'
        obtain ⟨_, rfl⟩ := hb
        obtain ⟨_, rfl⟩ := hb'
        simp only [numaDisjoint, hgx, hgy, decide_eq_true_eq] at hd
        have hgroup : fx.Group = fy.Group := by rw [← hgrx, ← hgry]; exact hs.1
        exact land_odd (bit_zero_of_guard hbx) (bit_zero_of_guard hby) (hd hgroup)

/-- C6 (witness): the amended statement on the two-NUMA scenario, whose NUMA masks
`{0,1}` and `{2,3}` are disjoint. -/
theorem C6_processor_numbers_distinct_per_group_witness :
    GetLogicalProcessorInformationEx (.ok scenarioTwoNuma) true
        (.ok [⟨"BFEBFBFF000906EA"⟩]) =
      .ok ⟨[⟨0, 0, 0, 0, 0⟩, ⟨1, 0, 0, 0, 0⟩],
        some [⟨0, 0, 0, "BFEBFBFF000906EA"⟩, ⟨0, 1, 0, ""⟩]⟩ ∧
    scenarioTwoNuma.Pairwise (fun x y => numaDisjoint x y = true) ∧
      [(⟨0, 0, 0, 0, 0⟩ : LogicalProcessor), ⟨1, 0, 0, 0, 0⟩].Pairwise
        (fun x y => ¬ sameGroupAndNumber x y) :=
  ⟨rfl, by decide,
    C6_processor_numbers_distinct_per_group scenarioTwoNuma true [⟨"BFEBFBFF000906EA"⟩]
      ⟨[⟨0, 0, 0, 0, 0⟩, ⟨1, 0, 0, 0, 0⟩],
        some [⟨0, 0, 0, "BFEBFBFF000906EA"⟩, ⟨0, 1, 0, ""⟩]⟩ rfl (by decide)⟩

/-- C7 (counterexample): a 32-byte buffer holding one Core record that declares the
size 40 is walked without any error: the record is decoded and returned. -/
theorem C7_counterexample :
    sizeAt (bufferMem overrunningRecord (fun _ => 0)) 0 = 40 ∧
    GetSystemLogicalProcessorInformationEx
      ⟨true, 32, 1, 32, bufferMem overrunningRecord (fun _ => 0)⟩ 2 =
      some (.ok [.processor ⟨0, 7, 3, 0, []⟩]) := by
  constructor <;> rfl

/-- C7 (amended): when the record reached after `n` steps of the walk declares a size
that reaches past the declared length `lpiExRl` of the buffer, and the bytes the walk
reads of every record it reaches lie inside the buffer, the walk returns no error: it
decodes that record like any other, leaves the loop and returns the relationships
decoded so far; and it reads no byte outside the buffer: the result is the same over
every memory that holds the same `bufLen` bytes of the buffer. -/
theorem C7_overrunning_record_ends_walk (mem : Nat → Nat) (bufLen lpiExRl n fuel : Nat)
    (hlen : lpiExRl ≤ bufLen)
    (hreach : ∀ k, k ≤ n → (Nat.iterate (walkStep mem) k ⟨0, []⟩).off < lpiExRl)
    (hinside : ∀ k, k ≤ n →
      ReadsInside mem bufLen (Nat.iterate (walkStep mem) k ⟨0, []⟩).off)
    (hover : lpiExRl < (Nat.iterate (walkStep mem) n ⟨0, []⟩).off +
      sizeAt mem (Nat.iterate (walkStep mem) n ⟨0, []⟩).off)
    (hfuel : n + 2 ≤ fuel) :
    walkLoop mem bufLen lpiExRl fuel ⟨0, []⟩ =
      some (.ok (Nat.iterate (walkStep mem) (n + 1) ⟨0, []⟩).relationships) ∧
    ∀ mem2 : Nat → Nat, (∀ i, i < bufLen → mem2 i = mem i) →
      walkLoop mem2 bufLen lpiExRl fuel ⟨0, []⟩ =
        walkLoop mem bufLen lpiExRl fuel ⟨0, []⟩ := by
  have h1 := walkLoop_overrun mem bufLen lpiExRl n fuel hlen hreach hover hfuel
  refine ⟨h1, fun mem2 hsame => ?_⟩
  have hit := iterate_walkStep_congr_inside mem mem2 bufLen n hsame ⟨0, []⟩ hinside
  have hsz := (walkStep_congr_inside mem mem2 bufLen hsame _ (hinside n (Nat.le_refl n))).2
  rw [h1, walkLoop_overrun mem2 bufLen lpiExRl n fuel hlen
    (fun k hk => by rw [hit k (by omega)]; exact hreach k hk)
    (by rw [hit n (by omega), hsz]; exact hover) hfuel, hit (n + 1) (Nat.le_refl _)]

/-- C7 (witness): the amended statement on the 32-byte buffer whose only record, a
Core record without group masks, declares the size 40: the walk returns that record,
also when every byte behind the buffer is 255 instead of 0. -/
theorem C7_overrunning_record_ends_walk_witness :
    ReadsInside (bufferMem overrunningRecord (fun _ => 0)) 32 0 ∧
    (32 : Nat) < 0 + sizeAt (bufferMem overrunningRecord (fun _ => 0)) 0 ∧
    walkLoop (bufferMem overrunningRecord (fun _ => 0)) 32 32 2 ⟨0, []⟩ =
      some (.ok [.processor ⟨0, 7, 3, 0, []⟩]) ∧
    walkLoop (bufferMem overrunningRecord (fun _ => 255)) 32 32 2 ⟨0, []⟩ =
      walkLoop (bufferMem overrunningRecord (fun _ => 0)) 32 32 2 ⟨0, []⟩ :=
  ⟨by decide, by decide,
    (C7_overrunning_record_ends_walk (bufferMem overrunningRecord (fun _ => 0)) 32 32 0 2
      (by decide) (by decide) (by decide) (by decide) (by decide)).1,
    (C7_overrunning_record_ends_walk (bufferMem overrunningRecord (fun _ => 0)) 32 32 0 2
      (by decide) (by decide) (by decide) (by decide) (by decide)).2
      (bufferMem overrunningRecord (fun _ => 255)) (by decide)⟩

/-- C8: in a buffer that is a concatenation of well-formed records, inserting at a
record boundary a well-formed record with a tag other than Core, NumaNode and Package
leaves the relationships returned by the record walk unchanged, and the walk returns
them without error. -/
theorem C8_unknown_record_is_skipped (pre post : List (List Nat)) (u : List Nat)
    (behind : Nat → Nat) (fuel : Nat)
    (hpre : ∀ r ∈ pre, WellFormedRecord r) (hpost : ∀ r ∈ post, WellFormedRecord r)
    (hu : WellFormedRecord u) (htag : ¬ knownTag (tagAt (recordMem u) 0))
    (hfuel : pre.length + post.length + 2 ≤ fuel) :
    ∃ rels,
      walkLoop (bufferMem (pre ++ post).flatten behind) (pre ++ post).flatten.length
        (pre ++ post).flatten.length fuel ⟨0, []⟩ = some (.ok rels) ∧
      walkLoop (bufferMem (pre ++ [u] ++ post).flatten behind)
        (pre ++ [u] ++ post).flatten.length
        (pre ++ [u] ++ post).flatten.length fuel ⟨0, []⟩ = some (.ok rels) := by
  refine ⟨((pre ++ post).map (fun r => decodeAt (recordMem r) 0)).flatten, ?_, ?_⟩
  · rw [walkLoop_records _ _ _ (Nat.le_refl _) (pre ++ post) 0 fuel []
      (fun r hr => (List.mem_append.mp hr).elim (hpre r) (hpost r))
      (agree_bufferMem _ _) (by simp) (by simp only [List.length_append]; omega)]
    simp
  · rw [walkLoop_records _ _ _ (Nat.le_refl _) (pre ++ [u] ++ post) 0 fuel []
      (fun r hr => by
        simp only [List.mem_append, List.mem_singleton] at hr
        rcases hr with (hr | hr) | hr
        · exact hpre r hr
        · exact hr ▸ hu
        · exact hpost r hr)
      (agree_bufferMem _ _) (by simp)
      (by simp only [List.length_append, List.length_singleton]; omega)]
    simp [decodeAt_unknown _ _ htag]

/-- C8 (witness): a Core record followed by a NumaNode record, with a 16-byte record
of tag 3 inserted between them. -/
theorem C8_unknown_record_is_skipped_witness :
    WellFormedRecord sampleCoreRecord ∧ WellFormedRecord sampleNumaRecord ∧
    WellFormedRecord sampleUnknownRecord ∧
    ¬ knownTag (tagAt (recordMem sampleUnknownRecord) 0) ∧
    ∃ rels,
      walkLoop (bufferMem ([sampleCoreRecord] ++ [sampleNumaRecord]).flatten (fun _ => 0))
        ([sampleCoreRecord] ++ [sampleNumaRecord]).flatten.length
        ([sampleCoreRecord] ++ [sampleNumaRecord]).flatten.length 4 ⟨0, []⟩ =
          some (.ok rels) ∧
      walkLoop
        (bufferMem ([sampleCoreRecord] ++ [sampleUnknownRecord] ++ [sampleNumaRecord]).flatten
          (fun _ => 0))
        ([sampleCoreRecord] ++ [sampleUnknownRecord] ++ [sampleNumaRecord]).flatten.length
        ([sampleCoreRecord] ++ [sampleUnknownRecord] ++ [sampleNumaRecord]).flatten.length
        4 ⟨0, []⟩ = some (.ok rels) :=
  ⟨by decide, by decide, by decide, by decide,
    C8_unknown_record_is_skipped [sampleCoreRecord] [sampleNumaRecord] sampleUnknownRecord
      (fun _ => 0) 4 (by decide) (by decide) (by decide) (by decide) (by decide)⟩

/-- C9 (the code departs from the claim): on an 8-byte buffer holding one record of
tag 3 that declares the size 0, the offset never advances and the record walk of
`GetSystemLogicalProcessorInformationEx` does not return, whatever the number of
iterations allowed. -/
theorem C9_zero_size_record_never_returns (fuel : Nat) :
    sizeAt (bufferMem zeroSizeRecord (fun _ => 0)) 0 = 0 ∧
    GetSystemLogicalProcessorInformationEx
      ⟨true, 8, 1, 8, bufferMem zeroSizeRecord (fun _ => 0)⟩ fuel = none := by
  refine ⟨rfl, ?_⟩
  unfold GetSystemLogicalProcessorInformationEx
  simp only [Bool.not_true, Bool.false_eq_true, if_false]
  exact walkLoop_zeroSizeRecord fuel

/-- C10 (the code departs from the claim): a NUMA record with an empty `GroupMasks`
makes `GetLogicalProcessorInformationEx` panic at `numa.GroupMasks[0]`, and on
Windows 10 or later a Core record with an empty `GroupMasks` makes it panic at
`core.GroupMasks[0]`. -/
theorem C10_empty_group_masks_panic (w : Bool) (ids : List Win32Processor)
    (wmi : Except Fault (List Win32Processor)) :
    GetLogicalProcessorInformationEx (.ok [.numa ⟨1, 0, 0, []⟩]) w (.ok ids) =
      .error (.panic "index out of range [0] with length 0") ∧
    GetLogicalProcessorInformationEx (.ok [.processor ⟨0, 0, 0, 0, []⟩]) true wmi =
      .error (.panic "index out of range [0] with length 0") := by
  constructor
  · cases w <;> rfl
  · rfl

/-! ## Lemmas on `Processor` -/

theorem foldl_setAdd_spec {α : Type} (f : α → Nat) :
    ∀ (l : List α) (s : List Nat), s.Nodup →
      (l.foldl (fun s a => setAdd s (f a)) s).Nodup ∧
      ∀ x, x ∈ l.foldl (fun s a => setAdd s (f a)) s ↔ x ∈ s ∨ x ∈ l.map f
  | [], s, hs => ⟨hs, fun x => by simp⟩
  | a :: rest, s, hs => by
    rw [List.foldl_cons]
    have hnd : (setAdd s (f a)).Nodup := by
      unfold setAdd
      split_ifs with hmem
      · exact hs
      · exact List.Nodup.append hs (List.nodup_singleton _) (by simpa using hmem)
    obtain ⟨h1, h2⟩ := foldl_setAdd_spec f rest (setAdd s (f a)) hnd
    refine ⟨h1, fun x => ?_⟩
    rw [h2 x]
    unfold setAdd
    split_ifs with hmem
    · simp only [List.map_cons, List.mem_cons]
      constructor
      · rintro (h | h)
        · exact Or.inl h
        · exact Or.inr (Or.inr h)
      · rintro (h | h | h)
        · exact Or.inl h
        · exact Or.inl (h ▸ hmem)
        · exact Or.inr h
    · simp only [List.mem_append, List.mem_singleton, List.map_cons, List.mem_cons]
      tauto

theorem setCardinality_foldl_setAdd {α : Type} (f : α → Nat) (l : List α) :
    setCardinality (l.foldl (fun s a => setAdd s (f a)) []) = (l.map f).toFinset.card := by
  obtain ⟨hnd, hmem⟩ := foldl_setAdd_spec f l [] List.nodup_nil
  unfold setCardinality
  rw [← List.toFinset_card_of_nodup hnd]
  congr 1
  ext x
  simp [hmem x]

theorem length_getPhysicalProcessorsFrom (em : List (GroupAffinity × Nat))
    (cpm : List (Nat × Nat)) (pcm : List (Nat × String)) :
    ∀ (cores : List GroupAffinity) (i : Nat),
      (getPhysicalProcessorsFrom em cpm pcm i cores).length = cores.length
  | [], _ => rfl
  | _ :: rest, i => by
    simp [getPhysicalProcessorsFrom, length_getPhysicalProcessorsFrom em cpm pcm rest (i + 1)]

/-! ## The claims on `Processor` -/

/-- C11 (counterexample): on a single Core record with mask `{0}` and no NUMA record the
extended path returns one physical processor and no logical processor; `Processor`
reports the physical processor count 1, while no core index at all is observed on the
logical processors. -/
theorem C11_counterexample :
    Processor (.ok sampleProcessorIdentifier)
        (processorCounts true
          (GetLogicalProcessorInformationEx (.ok [.processor ⟨0, 0, 0, 1, [⟨1, 0⟩]⟩]) false
            (.ok []))
          (GetLogicalProcessorInformation (.ok []))) =
      .ok ⟨sampleProcessorIdentifier, 0, 1, 0⟩ ∧
    GetLogicalProcessorInformationEx (.ok [.processor ⟨0, 0, 0, 1, [⟨1, 0⟩]⟩]) false
        (.ok []) =
      .ok ⟨[], some [⟨0, 0, 0, ""⟩]⟩ := by
  constructor <;> rfl

/-- C11 (amended): for a topology result whose `PhysicalProcessors` list is present (the
extended path), `Processor` reports as `PhysicalProcessorCount` the length of that list;
for a result of `GetLogicalProcessorInformationEx` this is the number of core group
masks decoded; it is the number of distinct core indices observed on the logical
processors when the observed core indices are exactly the indices of the list. -/
theorem C11_physical_processor_count (procId : ProcessorIdentifier)
    (info : LogicalProcessorInformation) (pps : List PhysicalProcessor)
    (hpps : info.PhysicalProcessors = some pps) :
    ∃ proc, Processor (.ok procId) (.ok info) = .ok proc ∧
      proc.PhysicalProcessorCount = pps.length ∧
      ((∀ k, k < pps.length ↔
          ∃ lp ∈ info.LogicalProcessors, lp.PhysicalProcessorNumber = k) →
        proc.PhysicalProcessorCount =
          (info.LogicalProcessors.map (·.PhysicalProcessorNumber)).toFinset.card) ∧
      (∀ (procInfo : List SystemLogicalProcessorInformationEx) (w : Bool)
          (ids : List Win32Processor),
        GetLogicalProcessorInformationEx (.ok procInfo) w (.ok ids) = .ok info →
        proc.PhysicalProcessorCount = (procInfo.map coreMasksOf).flatten.length) := by
  refine ⟨_, rfl, ?_, ?_, ?_⟩
  · simp [WindowsCentralProcessor.PhysicalProcessorCount, hpps]
  · intro hobs
    have hset : (info.LogicalProcessors.map (·.PhysicalProcessorNumber)).toFinset =
        Finset.range pps.length := by
      ext k
      simp only [List.mem_toFinset, List.mem_map, Finset.mem_range]
      exact (hobs k).symm
    simp [WindowsCentralProcessor.PhysicalProcessorCount, hpps, hset]
  · intro procInfo w ids h
    obtain ⟨st, acc, hg, _, rfl⟩ := GetLogicalProcessorInformationEx_ok h
    simp only [Option.some.injEq] at hpps
    subst hpps
    simp [WindowsCentralProcessor.PhysicalProcessorCount, getPhysicalProcessors,
      length_getPhysicalProcessorsFrom, (gather_spec procInfo hg).1]

/-- C11 (witness): the amended statement on the result of the extended path for one
core `{0}`, one package `{0}` and one NUMA node `{0}`: the count is 1, the number of
core masks and the number of distinct core indices observed. -/
theorem C11_physical_processor_count_witness :
    GetLogicalProcessorInformationEx
        (.ok [.processor ⟨0, 0, 0, 1, [⟨1, 0⟩]⟩, .processor ⟨2, 0, 0, 1, [⟨1, 0⟩]⟩,
          .numa ⟨1, 0, 1, [⟨1, 0⟩]⟩]) false (.ok []) =
      .ok ⟨[⟨0, 0, 0, 0, 0⟩], some [⟨0, 0, 0, ""⟩]⟩ ∧
    ∃ proc,
      Processor (.ok sampleProcessorIdentifier)
          (.ok ⟨[⟨0, 0, 0, 0, 0⟩], some [⟨0, 0, 0, ""⟩]⟩) = .ok proc ∧
      proc.PhysicalProcessorCount = 1 ∧
      proc.PhysicalProcessorCount =
        ([(⟨0, 0, 0, 0, 0⟩ : LogicalProcessor)].map
          (·.PhysicalProcessorNumber)).toFinset.card ∧
      proc.PhysicalProcessorCount =
        (([.processor ⟨0, 0, 0, 1, [⟨1, 0⟩]⟩, .processor ⟨2, 0, 0, 1, [⟨1, 0⟩]⟩,
          .numa ⟨1, 0, 1, [⟨1, 0⟩]⟩] :
            List SystemLogicalProcessorInformationEx).map coreMasksOf).flatten.length := by
  obtain ⟨proc, h1, h2, h3, h4⟩ :=
    C11_physical_processor_count sampleProcessorIdentifier
      ⟨[⟨0, 0, 0, 0, 0⟩], some [⟨0, 0, 0, ""⟩]⟩ [⟨0, 0, 0, ""⟩] rfl
  refine ⟨rfl, proc, h1, h2, h3 (fun k => ?_), h4 _ false [] rfl⟩
  simp only [List.length_singleton, List.mem_singleton, exists_eq_left]
  omega

/-- C12: for every topology result handed to `Processor`, the reported
`PhysicalPackageCount` is the number of distinct `PhysicalPackageNumber` values among
the logical processors of the result, and `LogicalProcessorCount` is the length of the
`LogicalProcessors` list. -/
theorem C12_package_and_logical_counts (procId : ProcessorIdentifier)
    (info : LogicalProcessorInformation) :
    ∃ proc, Processor (.ok procId) (.ok info) = .ok proc ∧
      proc.PhysicalPackageCount =
        (info.LogicalProcessors.map (·.PhysicalPackageNumber)).toFinset.card ∧
      proc.LogicalProcessorCount = info.LogicalProcessors.length := by
  refine ⟨_, rfl, ?_, rfl⟩
  exact setCardinality_foldl_setAdd (·.PhysicalPackageNumber) info.LogicalProcessors

/-! ## Lemmas on identifiers and efficiency classes -/

theorem mapGet_enumFrom_processorId (k : Nat) :
    ∀ (ids : List Win32Processor) (j : Nat),
      mapGet "" ((ids.enumFrom j).map (fun iv => (iv.1, iv.2.ProcessorId))) k =
        if j ≤ k then packageIdLookup ids (k - j) else ""
  | [], j => by simp [mapGet, packageIdLookup]
  | v :: rest, j => by
    simp only [List.enumFrom_cons, List.map_cons, mapGet]
    rw [mapGet_enumFrom_processorId k rest (j + 1)]
    by_cases hjk : j = k
    · subst hjk
      simp [packageIdLookup]
    · simp only [hjk, if_false]
      by_cases hle : j ≤ k
      · have h1 : j + 1 ≤ k := by omega
        obtain ⟨d, hd⟩ : ∃ d, k - j = d + 1 := ⟨k - j - 1, by omega⟩
        have h2 : k - (j + 1) = d := by omega
        simp [hle, h1, hd, h2, packageIdLookup]
      · have h1 : ¬ j + 1 ≤ k := by omega
        simp [hle, h1]

theorem mapGet_processorIdMapOf (ids : List Win32Processor) (k : Nat) :
    mapGet "" (processorIdMapOf ids) k = packageIdLookup ids k := by
  unfold processorIdMapOf List.enum
  rw [mapGet_enumFrom_processorId k ids 0]
  simp

theorem idString_of_mem_getPhysicalProcessorsFrom (em : List (GroupAffinity × Nat))
    (cpm : List (Nat × Nat)) (pcm : List (Nat × String)) :
    ∀ (cores : List GroupAffinity) (i : Nat) (pp : PhysicalProcessor),
      pp ∈ getPhysicalProcessorsFrom em cpm pcm i cores →
      pp.IdString = mapGet "" pcm pp.PhysicalProcessorNumber
  | [], i, pp, h => by simp [getPhysicalProcessorsFrom] at h
  | core :: rest, i, pp, h => by
    unfold getPhysicalProcessorsFrom at h
    rcases List.mem_cons.mp h with h | h
    · rw [h]
    · exact idString_of_mem_getPhysicalProcessorsFrom em cpm pcm rest (i + 1) pp h

theorem efficiency_of_mem_getPhysicalProcessorsFrom (em : List (GroupAffinity × Nat))
    (cpm : List (Nat × Nat)) (pcm : List (Nat × String)) :
    ∀ (cores : List GroupAffinity) (i : Nat) (pp : PhysicalProcessor),
      pp ∈ getPhysicalProcessorsFrom em cpm pcm i cores →
      ∃ core ∈ cores, pp.Efficiency = mapGet 0 em core
  | [], i, pp, h => by simp [getPhysicalProcessorsFrom] at h
  | core :: rest, i, pp, h => by
    unfold getPhysicalProcessorsFrom at h
    rcases List.mem_cons.mp h with h | h
    · exact ⟨core, List.mem_cons_self _ _, by rw [h]⟩
    · obtain ⟨c, hc, he⟩ :=
        efficiency_of_mem_getPhysicalProcessorsFrom em cpm pcm rest (i + 1) pp h
      exact ⟨c, List.mem_cons_of_mem _ hc, he⟩

theorem getElem?_getPhysicalProcessorsFrom (em : List (GroupAffinity × Nat))
    (cpm : List (Nat × Nat)) (pcm : List (Nat × String)) :
    ∀ (cores : List GroupAffinity) (i j : Nat) (core : GroupAffinity),
      cores[j]? = some core →
      ∃ pp, (getPhysicalProcessorsFrom em cpm pcm i cores)[j]? = some pp ∧
        pp.Efficiency = mapGet 0 em core ∧ pp.PhysicalProcessorNumber = i + j
  | [], i, j, core, h => by simp at h
  | c :: rest, i, 0, core, h => by
    simp only [List.getElem?_cons_zero, Option.some.injEq] at h
    subst h
    exact ⟨⟨mapGet 0 cpm i, i, mapGet 0 em c, mapGet "" pcm i⟩,
      by simp [getPhysicalProcessorsFrom], rfl, rfl⟩
  | c :: rest, i, j + 1, core, h => by
    simp only [List.getElem?_cons_succ] at h
    obtain ⟨pp, h1, h2, h3⟩ :=
      getElem?_getPhysicalProcessorsFrom em cpm pcm rest (i + 1) j core h
    exact ⟨pp, by simpa [getPhysicalProcessorsFrom] using h1, h2, by omega⟩

theorem foldl_numaBitStep_idMaps (cores : List GroupAffinity)
    (packages : List (List GroupAffinity)) (pim : List (Nat × String))
    (numa : NumaNodeRelationship) (g mask : Nat) :
    ∀ (l : List Nat) (acc : Reconciled), idMapsConsistent pim acc →
      idMapsConsistent pim (l.foldl (numaBitStep cores packages pim numa g mask) acc)
  | [], acc, h => by simpa using h
  | lp :: rest, acc, h => by
    rw [List.foldl_cons]
    apply foldl_numaBitStep_idMaps cores packages pim numa g mask rest
    unfold numaBitStep
    by_cases hz : u64 ((mask &&& 1) <<< lp) = 0
    · simp only [hz, if_true]
      exact h
    · simp only [hz, if_false]
      intro k
      by_cases hk : matchingCore cores g lp = k
      · subst hk
        refine ⟨fun _ => by simp [mapGet, mapSet], fun hnex => ?_⟩
        exact absurd ⟨_, List.mem_append_right _ (List.mem_singleton_self _), rfl⟩ hnex
      · have hmem : (∃ x ∈ acc.logProcs ++
            [({ ProcessorNumber := lp, PhysicalProcessorNumber := matchingCore cores g lp,
                PhysicalPackageNumber := matchingPackage packages g lp,
                NumaNode := numa.NodeNumber, ProcessorGroup := g } : LogicalProcessor)],
            x.PhysicalProcessorNumber = k) ↔
            ∃ x ∈ acc.logProcs, x.PhysicalProcessorNumber = k := by
          constructor
          · rintro ⟨x, hx, hxk⟩
            rcases List.mem_append.mp hx with hx | hx
            · exact ⟨x, hx, hxk⟩
            · simp only [List.mem_singleton] at hx
              subst hx
              exact absurd hxk hk
          · rintro ⟨x, hx, hxk⟩
            exact ⟨x, List.mem_append_left _ hx, hxk⟩
        simp only [hmem, mapGet, mapSet, hk, if_false]
        exact h k

theorem reconcile_idMaps {cores : List GroupAffinity}
    {packages : List (List GroupAffinity)} {pim : List (Nat × String)} :
    ∀ (numas : List NumaNodeRelationship) {acc acc1 : Reconciled},
      reconcile cores packages pim acc numas = .ok acc1 →
      idMapsConsistent pim acc → idMapsConsistent pim acc1
  | [], acc, acc1, h, hinv => by
    simp only [reconcile, Except.ok.injEq] at h
    rw [← h]; exact hinv
  | numa :: rest, acc, acc1, h, hinv => by
    unfold reconcile at h
    cases hs : numaStep cores packages pim acc numa with
    | error e => simp [hs] at h
    | ok acc2 =>
      simp only [hs] at h
      apply reconcile_idMaps rest h
      unfold numaStep at hs
      cases hm : numa.GroupMasks with
      | nil => simp [hm] at hs
      | cons first tl =>
        simp only [hm, Except.ok.injEq] at hs
        rw [← hs]
        exact foldl_numaBitStep_idMaps cores packages pim numa _ _ _ acc hinv

/-! ## The claims on identifiers and efficiency classes -/

/-- C13 (counterexample): cores `{0}` and `{1}`, one package `{0,1}` and one NUMA node
`{0}`.  No logical processor belongs to core 1, so physical processor 1 keeps the
package number 0 and the empty identifier, while the lookup gives package 0 the
identifier of the first WMI processor. -/
theorem C13_counterexample :
    GetLogicalProcessorInformationEx
        (.ok [.processor ⟨0, 0, 0, 1, [⟨1, 0⟩]⟩, .processor ⟨0, 0, 0, 1, [⟨2, 0⟩]⟩,
          .processor ⟨2, 0, 0, 1, [⟨3, 0⟩]⟩, .numa ⟨1, 0, 1, [⟨1, 0⟩]⟩])
        false (.ok [⟨"BFEBFBFF000906EA"⟩]) =
      .ok ⟨[⟨0, 0, 0, 0, 0⟩],
        some [⟨0, 0, 0, "BFEBFBFF000906EA"⟩, ⟨0, 1, 0, ""⟩]⟩ ∧
    packageIdLookup [⟨"BFEBFBFF000906EA"⟩] 0 = "BFEBFBFF000906EA" := by
  constructor <;> rfl

/-- C13 (amended): a physical processor returned by `GetLogicalProcessorInformationEx`
whose number is the core index of some returned logical processor has as `IdString`
the lookup applied to its `PhysicalPackageNumber`; a physical processor to which no
logical processor refers has the empty `IdString` and the package number 0. -/
theorem C13_id_string_of_referenced_core
    (procInfo : List SystemLogicalProcessorInformationEx) (w : Bool)
    (ids : List Win32Processor) (info : LogicalProcessorInformation)
    (h : GetLogicalProcessorInformationEx (.ok procInfo) w (.ok ids) = .ok info)
    (pps : List PhysicalProcessor) (hpps : info.PhysicalProcessors = some pps)
    (p : PhysicalProcessor) (hp : p ∈ pps) :
    ((∃ lp ∈ info.LogicalProcessors,
        lp.PhysicalProcessorNumber = p.PhysicalProcessorNumber) →
      p.IdString = packageIdLookup ids p.PhysicalPackageNumber) ∧
    ((¬ ∃ lp ∈ info.LogicalProcessors,
        lp.PhysicalProcessorNumber = p.PhysicalProcessorNumber) →
      p.IdString = "" ∧ p.PhysicalPackageNumber = 0) := by
  obtain ⟨st, acc, hg, hr, rfl⟩ := GetLogicalProcessorInformationEx_ok h
  simp only [Option.some.injEq] at hpps
  subst hpps
  have hinv : idMapsConsistent (processorIdMapOf ids) acc :=
    reconcile_idMaps _ hr (fun k => ⟨fun hex => by simp at hex, fun _ => ⟨rfl, rfl⟩⟩)
  have hid := idString_of_mem_getPhysicalProcessorsFrom _ _ _ _ _ _ hp
  have hpkg := package_of_mem_getPhysicalProcessorsFrom _ _ _ _ _ _ hp
  obtain ⟨hin, hout⟩ := hinv p.PhysicalProcessorNumber
  constructor
  · intro hex
    rw [hid, hpkg, hin hex, mapGet_processorIdMapOf]
  · intro hnex
    rw [hid, hpkg]
    exact hout hnex

/-- C13 (witness): the amended statement on cores `{0}` and `{1}`, one package `{0,1}`
and one NUMA node `{0}`, at physical processor 0, to which logical processor 0 refers. -/
theorem C13_id_string_of_referenced_core_witness :
    GetLogicalProcessorInformationEx
        (.ok [.processor ⟨0, 0, 0, 1, [⟨1, 0⟩]⟩, .processor ⟨0, 0, 0, 1, [⟨2, 0⟩]⟩,
          .processor ⟨2, 0, 0, 1, [⟨3, 0⟩]⟩, .numa ⟨1, 0, 1, [⟨1, 0⟩]⟩])
        false (.ok [⟨"BFEBFBFF000906EA"⟩]) =
      .ok ⟨[⟨0, 0, 0, 0, 0⟩],
        some [⟨0, 0, 0, "BFEBFBFF000906EA"⟩, ⟨0, 1, 0, ""⟩]⟩ ∧
    (⟨0, 0, 0, "BFEBFBFF000906EA"⟩ : PhysicalProcessor).IdString =
      packageIdLookup [⟨"BFEBFBFF000906EA"⟩] 0 :=
  ⟨rfl, (C13_id_string_of_referenced_core
    [.processor ⟨0, 0, 0, 1, [⟨1, 0⟩]⟩, .processor ⟨0, 0, 0, 1, [⟨2, 0⟩]⟩,
      .processor ⟨2, 0, 0, 1, [⟨3, 0⟩]⟩, .numa ⟨1, 0, 1, [⟨1, 0⟩]⟩]
    false [⟨"BFEBFBFF000906EA"⟩]
    ⟨[⟨0, 0, 0, 0, 0⟩], some [⟨0, 0, 0, "BFEBFBFF000906EA"⟩, ⟨0, 1, 0, ""⟩]⟩ rfl
    _ rfl ⟨0, 0, 0, "BFEBFBFF000906EA"⟩ (by decide)).1 ⟨⟨0, 0, 0, 0, 0⟩, by decide, rfl⟩⟩

theorem mapGet_of_not_mem {κ ν : Type} [DecidableEq κ] (z : ν) (k : κ) :
    ∀ (m : List (κ × ν)), k ∉ m.map Prod.fst → mapGet z m k = z
  | [], _ => rfl
  | (k1, v) :: rest, h => by
    simp only [List.map_cons, List.mem_cons, not_or] at h
    simp only [mapGet, Ne.symm h.1, if_false]
    exact mapGet_of_not_mem z k rest h.2

theorem mapGet_append_of_not_mem {κ ν : Type} [DecidableEq κ] (z : ν) (k : κ)
    (m2 : List (κ × ν)) :
    ∀ (m1 : List (κ × ν)), k ∉ m1.map Prod.fst → mapGet z (m1 ++ m2) k = mapGet z m2 k
  | [], _ => rfl
  | (k1, v) :: rest, h => by
    simp only [List.map_cons, List.mem_cons, not_or] at h
    simp only [List.cons_append, mapGet, Ne.symm h.1, if_false]
    exact mapGet_append_of_not_mem z k m2 rest h.2

theorem gatherStep_efficiency {w : Bool} {st st1 : Gathered}
    {info : SystemLogicalProcessorInformationEx}
    (h : gatherStep w st info = .ok st1) :
    st1.coreEfficiencyMap =
      (if w then (efficiencyEntryOf info).toList else []) ++ st.coreEfficiencyMap := by
  unfold gatherStep at h
  cases info with
  | processor p =>
    simp only [SystemLogicalProcessorInformationEx.GetRelationship, RelationProcessorCore,
      RelationNumaNode, RelationProcessorPackage] at h
    simp only [efficiencyEntryOf, RelationProcessorCore]
    by_cases h0 : p.Relationship = 0
    · simp only [h0, if_true] at h
      cases w with
      | false =>
        simp only [Bool.false_eq_true, if_false, Except.ok.injEq] at h
        subst h
        simp
      | true =>
        cases hg : p.GroupMasks with
        | nil => simp [hg] at h
        | cons first rest =>
          simp only [hg, if_true, Except.ok.injEq] at h
          subst h
          simp [h0, mapSet]
    · by_cases h1 : p.Relationship = 1
      · simp [h1] at h
      · by_cases h2 : p.Relationship = 2
        · simp only [h2, if_true, Except.ok.injEq] at h
          simp only [OfNat.ofNat_ne_zero, OfNat.ofNat_ne_one, if_false, Except.ok.injEq] at h
          subst h
          simp [h2]
        · simp only [h0, h1, h2, if_false, Except.ok.injEq] at h
          subst h
          simp [h0]
  | numa n =>
    simp only [SystemLogicalProcessorInformationEx.GetRelationship, RelationProcessorCore,
      RelationNumaNode, RelationProcessorPackage] at h
    simp only [efficiencyEntryOf]
    by_cases h0 : n.Relationship = 0
    · simp [h0] at h
    · by_cases h1 : n.Relationship = 1
      · simp only [h1, one_ne_zero, if_true, if_false, Except.ok.injEq] at h
        subst h
        simp
      · by_cases h2 : n.Relationship = 2
        · simp [h2] at h
        · simp only [h0, h1, h2, if_false, Except.ok.injEq] at h
          subst h
          simp

theorem gather_efficiency {w : Bool} :
    ∀ (procInfo : List SystemLogicalProcessorInformationEx) {st st1 : Gathered},
      gather w st procInfo = .ok st1 →
      st1.coreEfficiencyMap =
        (if w then (procInfo.filterMap efficiencyEntryOf).reverse else []) ++
          st.coreEfficiencyMap
  | [], st, st1, h => by
    simp only [gather, Except.ok.injEq] at h
    simp [h]
  | info :: rest, st, st1, h => by
    unfold gather at h
    cases hs : gatherStep w st info with
    | error e => simp [hs] at h
    | ok st2 =>
      simp only [hs] at h
      rw [gather_efficiency rest h, gatherStep_efficiency hs]
      cases w with
      | false => simp
      | true =>
        cases he : efficiencyEntryOf info <;>
          simp [List.filterMap_cons, he, List.append_assoc]

theorem efficiencyEntry_key_mem :
    ∀ (l : List SystemLogicalProcessorInformationEx) (e : GroupAffinity × Nat),
      e ∈ l.filterMap efficiencyEntryOf → e.1 ∈ (l.map coreMasksOf).flatten := by
  intro l e he
  obtain ⟨r, hr, hre⟩ := List.mem_filterMap.mp he
  refine List.mem_flatten.mpr ⟨coreMasksOf r, List.mem_map.mpr ⟨r, hr, rfl⟩, ?_⟩
  cases r with
  | numa n => simp [efficiencyEntryOf] at hre
  | processor p =>
    unfold efficiencyEntryOf at hre
    unfold coreMasksOf
    by_cases h0 : p.Relationship = RelationProcessorCore
    · simp only [h0, if_true] at hre ⊢
      cases hg : p.GroupMasks with
      | nil => simp [hg] at hre
      | cons first rest =>
        simp only [hg, Option.some.injEq] at hre
        rw [← hre]
        exact List.mem_cons_self _ _
    · simp [h0] at hre

theorem efficiencyEntry_keys_subset (l : List SystemLogicalProcessorInformationEx)
    (k : GroupAffinity) (h : k ∉ (l.map coreMasksOf).flatten) :
    k ∉ (l.filterMap efficiencyEntryOf).map Prod.fst := by
  intro hk
  obtain ⟨e, he, rfl⟩ := List.mem_map.mp hk
  exact h (efficiencyEntry_key_mem l e he)

/-- C14: when efficiency reporting applies and the core group masks are pairwise
distinct, the physical processor at the position of a Core record's first mask in the
flattened core list has the `EfficiencyClass` of that record as `Efficiency`, and the
physical processors at the positions of its further masks have `Efficiency` 0. -/
theorem C14_efficiency_of_first_mask
    (procInfo : List SystemLogicalProcessorInformationEx) (ids : List Win32Processor)
    (info : LogicalProcessorInformation) (pps : List PhysicalProcessor)
    (h : GetLogicalProcessorInformationEx (.ok procInfo) true (.ok ids) = .ok info)
    (hpps : info.PhysicalProcessors = some pps)
    (hdistinct : (procInfo.map coreMasksOf).flatten.Nodup)
    (pre post : List SystemLogicalProcessorInformationEx) (c : ProcessorRelationship)
    (first : GroupAffinity) (rest : List GroupAffinity)
    (hsplit : procInfo = pre ++ .processor c :: post)
    (hrel : c.Relationship = RelationProcessorCore)
    (hmasks : c.GroupMasks = first :: rest) :
    (∃ pp, pps[(pre.map coreMasksOf).flatten.length]? = some pp ∧
      pp.Efficiency = c.EfficiencyClass) ∧
    ∀ j, j < rest.length →
      ∃ pp, pps[(pre.map coreMasksOf).flatten.length + 1 + j]? = some pp ∧
        pp.Efficiency = 0 := by
  obtain ⟨st, acc, hg, _, rfl⟩ := GetLogicalProcessorInformationEx_ok h
  simp only [Option.some.injEq] at hpps
  subst hpps
  have hcores : st.cores = (pre.map coreMasksOf).flatten ++
      ((first :: rest) ++ (post.map coreMasksOf).flatten) := by
    rw [(gather_spec procInfo hg).1, hsplit]
    simp [coreMasksOf, hrel, hmasks]
  have hem : st.coreEfficiencyMap =
      (post.filterMap efficiencyEntryOf).reverse ++
        ((first, c.EfficiencyClass) :: (pre.filterMap efficiencyEntryOf).reverse) := by
    rw [gather_efficiency procInfo hg, hsplit]
    simp [List.filterMap_append, List.filterMap_cons, efficiencyEntryOf, hrel, hmasks]
  have hnd : ((pre.map coreMasksOf).flatten ++
      ((first :: rest) ++ (post.map coreMasksOf).flatten)).Nodup := by
    rw [← hcores, (gather_spec procInfo hg).1]
    simpa using hdistinct
  obtain ⟨_, hnd2, hdisj1⟩ := List.nodup_append.mp hnd
  obtain ⟨hnd3, _, hdisj2⟩ := List.nodup_append.mp hnd2
  have hfirst_rest : first ∉ rest := (List.nodup_cons.mp hnd3).1
  constructor
  · have hget : st.cores[(pre.map coreMasksOf).flatten.length]? = some first := by
      rw [hcores, List.getElem?_append_right (Nat.le_refl _)]
      simp
    obtain ⟨pp, hpp, heff, _⟩ :=
      getElem?_getPhysicalProcessorsFrom st.coreEfficiencyMap acc.corePkgMap
        acc.pkgCpuidMap st.cores 0 _ first hget
    refine ⟨pp, hpp, ?_⟩
    rw [heff, hem, mapGet_append_of_not_mem]
    · simp [mapGet]
    · rw [List.map_reverse, List.mem_reverse]
      apply efficiencyEntry_keys_subset
      intro hmem
      exact hdisj2 (List.mem_cons_self _ _) hmem
  · intro j hj
    have hmj : rest[j]? = some (rest.get ⟨j, hj⟩) := by
      simp [List.getElem?_eq_getElem hj]
    have hmem_rest : rest.get ⟨j, hj⟩ ∈ rest := List.get_mem _ _ _
    have hget : st.cores[(pre.map coreMasksOf).flatten.length + 1 + j]? =
        some (rest.get ⟨j, hj⟩) := by
      rw [hcores, List.getElem?_append_right (by omega)]
      have : (pre.map coreMasksOf).flatten.length + 1 + j -
          (pre.map coreMasksOf).flatten.length = j + 1 := by omega
      rw [this]
      simp only [List.cons_append, List.getElem?_cons_succ]
      rw [List.getElem?_append_left hj]
      exact hmj
    obtain ⟨pp, hpp, heff, _⟩ :=
      getElem?_getPhysicalProcessorsFrom st.coreEfficiencyMap acc.corePkgMap
        acc.pkgCpuidMap st.cores 0 _ _ hget
    refine ⟨pp, hpp, ?_⟩
    rw [heff, hem]
    apply mapGet_of_not_mem
    simp only [List.map_append, List.map_reverse, List.map_cons, List.mem_append,
      List.mem_reverse, List.mem_cons, not_or]
    refine ⟨?_, ?_, ?_⟩
    · apply efficiencyEntry_keys_subset
      intro hmem
      exact hdisj2 (List.mem_cons_of_mem _ hmem_rest) hmem
    · intro heq
      exact hfirst_rest (heq ▸ hmem_rest)
    · apply efficiencyEntry_keys_subset
      intro hmem
      exact hdisj1 hmem (List.mem_append_left _ (List.mem_cons_of_mem _ hmem_rest))

/-- C14 (witness): one package, a Core record of efficiency class 1 with the masks
`{0,1}` of group 0 and `{0,1}` of group 1, a Core record of efficiency class 2 with the
mask `{2,3}` of group 0, and one NUMA node: the physical processors 0, 1 and 2 have the
efficiencies 1, 0 and 2. -/
theorem C14_efficiency_of_first_mask_witness :
    GetLogicalProcessorInformationEx
        (.ok [.processor ⟨2, 0, 0, 1, [⟨15, 0⟩]⟩,
          .processor ⟨0, 0, 1, 2, [⟨3, 0⟩, ⟨3, 1⟩]⟩, .processor ⟨0, 0, 2, 1, [⟨12, 0⟩]⟩,
          .numa ⟨1, 0, 1, [⟨15, 0⟩]⟩]) true (.ok []) =
      .ok ⟨[⟨0, 0, 0, 0, 0⟩, ⟨1, 0, 0, 0, 0⟩, ⟨2, 2, 0, 0, 0⟩, ⟨3, 2, 0, 0, 0⟩],
        some [⟨0, 0, 1, ""⟩, ⟨0, 1, 0, ""⟩, ⟨0, 2, 2, ""⟩]⟩ ∧
    (∃ pp, [(⟨0, 0, 1, ""⟩ : PhysicalProcessor), ⟨0, 1, 0, ""⟩, ⟨0, 2, 2, ""⟩][0]? = some pp ∧
      pp.Efficiency = 1) ∧
    (∃ pp, [(⟨0, 0, 1, ""⟩ : PhysicalProcessor), ⟨0, 1, 0, ""⟩, ⟨0, 2, 2, ""⟩][1]? = some pp ∧
      pp.Efficiency = 0) := by
  have hw := C14_efficiency_of_first_mask
    [.processor ⟨2, 0, 0, 1, [⟨15, 0⟩]⟩,
      .processor ⟨0, 0, 1, 2, [⟨3, 0⟩, ⟨3, 1⟩]⟩, .processor ⟨0, 0, 2, 1, [⟨12, 0⟩]⟩,
      .numa ⟨1, 0, 1, [⟨15, 0⟩]⟩] []
    ⟨[⟨0, 0, 0, 0, 0⟩, ⟨1, 0, 0, 0, 0⟩, ⟨2, 2, 0, 0, 0⟩, ⟨3, 2, 0, 0, 0⟩],
      some [⟨0, 0, 1, ""⟩, ⟨0, 1, 0, ""⟩, ⟨0, 2, 2, ""⟩]⟩
    [⟨0, 0, 1, ""⟩, ⟨0, 1, 0, ""⟩, ⟨0, 2, 2, ""⟩] rfl rfl (by decide)
    [.processor ⟨2, 0, 0, 1, [⟨15, 0⟩]⟩]
    [.processor ⟨0, 0, 2, 1, [⟨12, 0⟩]⟩, .numa ⟨1, 0, 1, [⟨15, 0⟩]⟩]
    ⟨0, 0, 1, 2, [⟨3, 0⟩, ⟨3, 1⟩]⟩ ⟨3, 0⟩ [⟨3, 1⟩] rfl rfl rfl
  exact ⟨rfl, hw.1, hw.2 0 (by decide)⟩

theorem gatherStep_withoutEfficiency (st : Gathered)
    (info : SystemLogicalProcessorInformationEx) :
    gatherStep false st (withoutEfficiency info) = gatherStep false st info := by
  cases info with
  | processor p =>
    simp [gatherStep, withoutEfficiency, SystemLogicalProcessorInformationEx.GetRelationship]
  | numa n => rfl

theorem gather_withoutEfficiency :
    ∀ (l : List SystemLogicalProcessorInformationEx) (st : Gathered),
      gather false st (l.map withoutEfficiency) = gather false st l
  | [], _ => rfl
  | info :: rest, st => by
    simp only [List.map_cons, gather, gatherStep_withoutEfficiency]
    cases gatherStep false st info with
    | error e => rfl
    | ok st1 => exact gather_withoutEfficiency rest st1

theorem GetLogicalProcessorInformationEx_withoutEfficiency
    (l : List SystemLogicalProcessorInformationEx)
    (wmi : Except Fault (List Win32Processor)) :
    GetLogicalProcessorInformationEx (.ok (l.map withoutEfficiency)) false wmi =
      GetLogicalProcessorInformationEx (.ok l) false wmi := by
  simp only [GetLogicalProcessorInformationEx, gather_withoutEfficiency]

/-- C15: when `Windows10OrGreater` is false, two record lists that differ only in the
efficiency-class bytes give the same result of `GetLogicalProcessorInformationEx`
(the same value, error or panic), and every physical processor of a returned result
has `Efficiency` 0. -/
theorem C15_efficiency_ignored_before_windows10
    (l1 l2 : List SystemLogicalProcessorInformationEx)
    (wmi : Except Fault (List Win32Processor))
    (hsame : l1.map withoutEfficiency = l2.map withoutEfficiency) :
    GetLogicalProcessorInformationEx (.ok l1) false wmi =
        GetLogicalProcessorInformationEx (.ok l2) false wmi ∧
      ∀ (ids : List Win32Processor) (info : LogicalProcessorInformation)
        (pps : List PhysicalProcessor),
        GetLogicalProcessorInformationEx (.ok l1) false (.ok ids) = .ok info →
        info.PhysicalProcessors = some pps → ∀ pp ∈ pps, pp.Efficiency = 0 := by
  constructor
  · rw [← GetLogicalProcessorInformationEx_withoutEfficiency l1,
      ← GetLogicalProcessorInformationEx_withoutEfficiency l2, hsame]
  · intro ids info pps h hpps pp hpp
    obtain ⟨st, acc, hg, _, rfl⟩ := GetLogicalProcessorInformationEx_ok h
    simp only [Option.some.injEq] at hpps
    subst hpps
    obtain ⟨core, _, heff⟩ := efficiency_of_mem_getPhysicalProcessorsFrom _ _ _ _ _ _ hpp
    rw [heff, gather_efficiency l1 hg]
    rfl

/-- C15 (witness): the two-NUMA scenario and the same records with the efficiency
classes 1 and 2 on the cores give the same result before Windows 10, with
efficiency 0 on both physical processors. -/
theorem C15_efficiency_ignored_before_windows10_witness :
    GetLogicalProcessorInformationEx (.ok scenarioTwoNuma) false
        (.ok [⟨"BFEBFBFF000906EA"⟩]) =
      GetLogicalProcessorInformationEx
        (.ok [.numa ⟨1, 0, 1, [⟨3, 0⟩]⟩, .numa ⟨1, 1, 1, [⟨12, 0⟩]⟩,
          .processor ⟨2, 0, 0, 1, [⟨15, 0⟩]⟩,
          .processor ⟨0, 0, 1, 1, [⟨3, 0⟩]⟩, .processor ⟨0, 0, 2, 1, [⟨12, 0⟩]⟩])
        false (.ok [⟨"BFEBFBFF000906EA"⟩]) ∧
    ∀ pp ∈ [(⟨0, 0, 0, "BFEBFBFF000906EA"⟩ : PhysicalProcessor), ⟨0, 1, 0, ""⟩],
      pp.Efficiency = 0 :=
  ⟨(C15_efficiency_ignored_before_windows10 scenarioTwoNuma
      [.numa ⟨1, 0, 1, [⟨3, 0⟩]⟩, .numa ⟨1, 1, 1, [⟨12, 0⟩]⟩,
        .processor ⟨2, 0, 0, 1, [⟨15, 0⟩]⟩,
        .processor ⟨0, 0, 1, 1, [⟨3, 0⟩]⟩, .processor ⟨0, 0, 2, 1, [⟨12, 0⟩]⟩]
      (.ok [⟨"BFEBFBFF000906EA"⟩]) rfl).1,
    (C15_efficiency_ignored_before_windows10 scenarioTwoNuma
      [.numa ⟨1, 0, 1, [⟨3, 0⟩]⟩, .numa ⟨1, 1, 1, [⟨12, 0⟩]⟩,
        .processor ⟨2, 0, 0, 1, [⟨15, 0⟩]⟩,
        .processor ⟨0, 0, 1, 1, [⟨3, 0⟩]⟩, .processor ⟨0, 0, 2, 1, [⟨12, 0⟩]⟩]
      (.ok [⟨"BFEBFBFF000906EA"⟩]) rfl).2 [⟨"BFEBFBFF000906EA"⟩]
      ⟨[⟨0, 0, 0, 0, 0⟩, ⟨1, 0, 0, 0, 0⟩],
        some [⟨0, 0, 0, "BFEBFBFF000906EA"⟩, ⟨0, 1, 0, ""⟩]⟩ _ rfl rfl⟩

/-! ## The legacy record walk -/

theorem legacyWalkLoop_succ (mem : Nat → Nat) (bufLen lpiRl fuel off : Nat)
    (arr : List ProcessorCore) :
    legacyWalkLoop mem bufLen lpiRl (fuel + 1) off arr =
      if off + legacyRecordSize ≤ lpiRl then
        if off < bufLen then
          legacyWalkLoop mem bufLen lpiRl fuel (off + legacyRecordSize)
            (arr ++ legacyDecodeAt mem off)
        else some (.error (.panic "index out of range"))
      else some (.ok arr) := rfl

theorem legacyWalkLoop_records (mem : Nat → Nat) (bufLen lpiRl : Nat)
    (hlen : lpiRl ≤ bufLen) :
    ∀ (n off fuel : Nat) (arr : List ProcessorCore),
      off + legacyRecordSize * n ≤ lpiRl → lpiRl < off + legacyRecordSize * (n + 1) →
      n + 1 ≤ fuel →
      legacyWalkLoop mem bufLen lpiRl fuel off arr =
        some (.ok (arr ++ ((List.range n).map
          (fun k => legacyDecodeAt mem (off + legacyRecordSize * k))).flatten))
  | 0, off, fuel, arr, _, h2, hfuel => by
    obtain ⟨f, rfl⟩ : ∃ f, fuel = f + 1 := ⟨fuel - 1, by omega⟩
    rw [legacyWalkLoop_succ]
    have : ¬ off + legacyRecordSize ≤ lpiRl := by simp only [legacyRecordSize] at h2 ⊢; omega
    simp [this]
  | n + 1, off, fuel, arr, h1, h2, hfuel => by
    obtain ⟨f, rfl⟩ : ∃ f, fuel = f + 1 := ⟨fuel - 1, by omega⟩
    rw [legacyWalkLoop_succ]
    have hc : off + legacyRecordSize ≤ lpiRl := by
      simp only [legacyRecordSize] at h1 ⊢; omega
    have hb : off < bufLen := by simp only [legacyRecordSize] at hc; omega
    simp only [hc, hb, if_true]
    rw [legacyWalkLoop_records mem bufLen lpiRl hlen n (off + legacyRecordSize) f _
      (by simp only [legacyRecordSize] at h1 ⊢; omega)
      (by simp only [legacyRecordSize] at h2 ⊢; omega) (by omega)]
    rw [List.range_succ_eq_map]
    simp only [List.map_cons, List.map_map, List.flatten_cons, Nat.mul_zero, Nat.add_zero,
      List.append_assoc]
    congr 5
    apply List.map_congr_left
    intro k _
    simp only [Function.comp, legacyRecordSize]
    congr 1
    omega

/-- C16 (counterexample): a 40-byte legacy buffer, one Core record and 8 stray bytes,
is walked without error: the complete record is returned. -/
theorem C16_counterexample :
    legacyBufferWithTail.length % legacyRecordSize = 8 ∧
    getSystemLogicalProcessorInformation
        ⟨true, 40, 1, 40, bufferMem legacyBufferWithTail (fun _ => 0)⟩ 3 =
      some (.ok [⟨3, 0, 1⟩]) := by
  constructor <;> rfl

/-- C16 (amended): whatever the declared length, a multiple of the record size 32 or
not, the legacy record walk returns no error: it decodes the complete records, as
many as the quotient of the length by 32, and ignores the bytes after the last
complete record. -/
theorem C16_legacy_walk_ignores_tail (mem : Nat → Nat) (bufLen lpiRl fuel : Nat)
    (hlen : lpiRl ≤ bufLen) (hfuel : lpiRl / legacyRecordSize + 1 ≤ fuel) :
    legacyWalkLoop mem bufLen lpiRl fuel 0 [] =
      some (.ok ((List.range (lpiRl / legacyRecordSize)).map
        (fun k => legacyDecodeAt mem (legacyRecordSize * k))).flatten) := by
  have h1 : 0 + legacyRecordSize * (lpiRl / legacyRecordSize) ≤ lpiRl := by
    rw [Nat.zero_add]; exact Nat.mul_div_le _ _
  have h2 : lpiRl < 0 + legacyRecordSize * (lpiRl / legacyRecordSize + 1) := by
    rw [Nat.zero_add]; exact Nat.lt_mul_div_succ _ (by decide)
  rw [legacyWalkLoop_records mem bufLen lpiRl hlen _ 0 fuel [] h1 h2 hfuel]
  simp

/-- C16 (witness): the amended statement on the 40-byte buffer: one record is decoded
and the 8 bytes behind it are ignored. -/
theorem C16_legacy_walk_ignores_tail_witness :
    (40 : Nat) % legacyRecordSize ≠ 0 ∧
    legacyWalkLoop (bufferMem legacyBufferWithTail (fun _ => 0)) 40 40 2 0 [] =
      some (.ok [⟨3, 0, 1⟩]) :=
  ⟨by decide,
    C16_legacy_walk_ignores_tail (bufferMem legacyBufferWithTail (fun _ => 0)) 40 40 2
      (by decide) (by decide)⟩

/-! ## The linear scans `matchingCore` and `matchingPackage` -/

theorem mask_bit_test (x lp : Nat) (hlp : lp < 64) :
    x &&& u64 (1 <<< lp) ≠ 0 ↔ x.testBit lp = true := by
  have hpow : u64 (1 <<< lp) = 2 ^ lp := by
    unfold u64
    rw [Nat.one_shiftLeft]
    exact Nat.mod_eq_of_lt (Nat.pow_lt_pow_right (by decide) hlp)
  rw [hpow, Nat.and_two_pow]
  cases x.testBit lp <;> simp

theorem coreClaims_cons_zero (core : GroupAffinity) (rest : List GroupAffinity)
    (g lp : Nat) :
    coreClaims (core :: rest) g lp 0 ↔ core.Group = g ∧ core.Mask.testBit lp = true := by
  simp [coreClaims]

theorem coreClaims_cons_succ (core : GroupAffinity) (rest : List GroupAffinity)
    (g lp j : Nat) :
    coreClaims (core :: rest) g lp (j + 1) ↔ coreClaims rest g lp j := by
  simp [coreClaims]

theorem matchingCoreFrom_spec (g lp : Nat) (hlp : lp < 64) :
    ∀ (cores : List GroupAffinity) (i : Nat),
      (matchingCoreFrom g lp i cores = none → ∀ j, ¬ coreClaims cores g lp j) ∧
      (∀ r, matchingCoreFrom g lp i cores = some r →
        ∃ d, r = i + d ∧ coreClaims cores g lp d ∧ ∀ j, coreClaims cores g lp j → d ≤ j)
  | [], i => by
    refine ⟨fun _ j hj => ?_, fun r hr => by simp [matchingCoreFrom] at hr⟩
    obtain ⟨c, hc, _⟩ := hj
    simp at hc
  | core :: rest, i => by
    obtain ⟨ihn, ihs⟩ := matchingCoreFrom_spec g lp hlp rest (i + 1)
    unfold matchingCoreFrom
    by_cases hc : core.Mask &&& u64 (1 <<< lp) ≠ 0 ∧ core.Group = g
    · rw [if_pos hc]
      refine ⟨fun hn => by simp at hn, fun r hr => ?_⟩
      simp only [Option.some.injEq] at hr
      refine ⟨0, by omega, ?_, fun j _ => Nat.zero_le j⟩
      exact (coreClaims_cons_zero core rest g lp).mpr ⟨hc.2, (mask_bit_test _ _ hlp).mp hc.1⟩
    · have hno : ¬ coreClaims (core :: rest) g lp 0 := by
        rw [coreClaims_cons_zero]
        intro h0
        exact hc ⟨(mask_bit_test _ _ hlp).mpr h0.2, h0.1⟩
      rw [if_neg hc]
      constructor
      · intro hn j hj
        cases j with
        | zero => exact hno hj
        | succ j => exact ihn hn j ((coreClaims_cons_succ core rest g lp j).mp hj)
      · intro r hr
        obtain ⟨d, hd, hcl, hmin⟩ := ihs r hr
        refine ⟨d + 1, by omega, (coreClaims_cons_succ core rest g lp d).mpr hcl, ?_⟩
        intro j hj
        cases j with
        | zero => exact absurd hj hno
        | succ j =>
          exact Nat.succ_le_succ (hmin j ((coreClaims_cons_succ core rest g lp j).mp hj))

/-- C17: for a bit index `lp` in `0..63`, `matchingCore cores g lp` is the least index
`i` such that `cores[i]` has group `g` and bit `lp` of its mask set, when there is
such an index, and `0` when no core claims the bit. -/
theorem C17_matchingCore_first_match (cores : List GroupAffinity) (g lp : Nat)
    (hlp : lp < 64) :
    ((∃ i, coreClaims cores g lp i) →
      coreClaims cores g lp (matchingCore cores g lp) ∧
        ∀ j, coreClaims cores g lp j → matchingCore cores g lp ≤ j) ∧
    ((¬ ∃ i, coreClaims cores g lp i) → matchingCore cores g lp = 0) := by
  obtain ⟨hn, hs⟩ := matchingCoreFrom_spec g lp hlp cores 0
  unfold matchingCore
  cases hm : matchingCoreFrom g lp 0 cores with
  | none =>
    refine ⟨fun ⟨i, hi⟩ => absurd hi (hn hm i), fun _ => rfl⟩
  | some r =>
    obtain ⟨d, hd, hcl, hmin⟩ := hs r hm
    have hrd : r = d := by omega
    subst hrd
    refine ⟨fun _ => ⟨hcl, hmin⟩, fun hne => absurd ⟨r, hcl⟩ hne⟩

/-- C17 (witness): among the cores `{0,1}` of group 0, `{2,3}` of group 1, `{2,3}` of
group 0 and `{2}` of group 0, bit 2 of group 0 belongs to index 2 first; bit 7 belongs
to no core and gives index 0. -/
theorem C17_matchingCore_first_match_witness :
    matchingCore [⟨3, 0⟩, ⟨12, 1⟩, ⟨12, 0⟩, ⟨4, 0⟩] 0 2 = 2 ∧
    (coreClaims [⟨3, 0⟩, ⟨12, 1⟩, ⟨12, 0⟩, ⟨4, 0⟩] 0 2
        (matchingCore [⟨3, 0⟩, ⟨12, 1⟩, ⟨12, 0⟩, ⟨4, 0⟩] 0 2) ∧
      ∀ j, coreClaims [⟨3, 0⟩, ⟨12, 1⟩, ⟨12, 0⟩, ⟨4, 0⟩] 0 2 j →
        matchingCore [⟨3, 0⟩, ⟨12, 1⟩, ⟨12, 0⟩, ⟨4, 0⟩] 0 2 ≤ j) ∧
    matchingCore [⟨3, 0⟩, ⟨12, 1⟩, ⟨12, 0⟩, ⟨4, 0⟩] 0 7 = 0 :=
  ⟨by decide,
    (C17_matchingCore_first_match [⟨3, 0⟩, ⟨12, 1⟩, ⟨12, 0⟩, ⟨4, 0⟩] 0 2 (by decide)).1
      ⟨2, ⟨12, 0⟩, rfl, rfl, by decide⟩,
    by decide⟩

theorem rowMatches_iff (g lp : Nat) (hlp : lp < 64) (row : List GroupAffinity) :
    rowMatches g lp row = true ↔
      ∃ col ∈ row, col.Group = g ∧ col.Mask.testBit lp = true := by
  unfold rowMatches
  simp only [List.any_eq_true, decide_eq_true_eq]
  constructor
  · rintro ⟨col, hcol, hbit, hgrp⟩
    exact ⟨col, hcol, hgrp, (mask_bit_test _ _ hlp).mp hbit⟩
  · rintro ⟨col, hcol, hgrp, hbit⟩
    exact ⟨col, hcol, (mask_bit_test _ _ hlp).mpr hbit, hgrp⟩

theorem packageClaims_cons_zero (row : List GroupAffinity)
    (rest : List (List GroupAffinity)) (g lp : Nat) :
    packageClaims (row :: rest) g lp 0 ↔
      ∃ col ∈ row, col.Group = g ∧ col.Mask.testBit lp = true := by
  simp [packageClaims]

theorem packageClaims_cons_succ (row : List GroupAffinity)
    (rest : List (List GroupAffinity)) (g lp j : Nat) :
    packageClaims (row :: rest) g lp (j + 1) ↔ packageClaims rest g lp j := by
  simp [packageClaims]

theorem matchingPackageFrom_spec (g lp : Nat) (hlp : lp < 64) :
    ∀ (packages : List (List GroupAffinity)) (i : Nat),
      (matchingPackageFrom g lp i packages = none → ∀ j, ¬ packageClaims packages g lp j) ∧
      (∀ r, matchingPackageFrom g lp i packages = some r →
        ∃ d, r = i + d ∧ packageClaims packages g lp d ∧
          ∀ j, packageClaims packages g lp j → d ≤ j)
  | [], i => by
    refine ⟨fun _ j hj => ?_, fun r hr => by simp [matchingPackageFrom] at hr⟩
    obtain ⟨c, hc, _⟩ := hj
    simp at hc
  | row :: rest, i => by
    obtain ⟨ihn, ihs⟩ := matchingPackageFrom_spec g lp hlp rest (i + 1)
    unfold matchingPackageFrom
    by_cases hc : rowMatches g lp row = true
    · rw [if_pos hc]
      refine ⟨fun hn => by simp at hn, fun r hr => ?_⟩
      simp only [Option.some.injEq] at hr
      refine ⟨0, by omega, ?_, fun j _ => Nat.zero_le j⟩
      exact (packageClaims_cons_zero row rest g lp).mpr ((rowMatches_iff g lp hlp row).mp hc)
    · have hno : ¬ packageClaims (row :: rest) g lp 0 := by
        rw [packageClaims_cons_zero]
        intro h0
        exact hc ((rowMatches_iff g lp hlp row).mpr h0)
      rw [if_neg hc]
      constructor
      · intro hn j hj
        cases j with
        | zero => exact hno hj
        | succ j => exact ihn hn j ((packageClaims_cons_succ row rest g lp j).mp hj)
      · intro r hr
        obtain ⟨d, hd, hcl, hmin⟩ := ihs r hr
        refine ⟨d + 1, by omega, (packageClaims_cons_succ row rest g lp d).mpr hcl, ?_⟩
        intro j hj
        cases j with
        | zero => exact absurd hj hno
        | succ j =>
          exact Nat.succ_le_succ
            (hmin j ((packageClaims_cons_succ row rest g lp j).mp hj))

/-- C18: for a bit index `lp` in `0..63`, `matchingPackage packages g lp` is the least
row index `i` such that some entry of `packages[i]` has group `g` and bit `lp` of its
mask set, when there is such a row, and `0` when no row claims the bit. -/
theorem C18_matchingPackage_first_match (packages : List (List GroupAffinity))
    (g lp : Nat) (hlp : lp < 64) :
    ((∃ i, packageClaims packages g lp i) →
      packageClaims packages g lp (matchingPackage packages g lp) ∧
        ∀ j, packageClaims packages g lp j → matchingPackage packages g lp ≤ j) ∧
    ((¬ ∃ i, packageClaims packages g lp i) → matchingPackage packages g lp = 0) := by
  obtain ⟨hn, hs⟩ := matchingPackageFrom_spec g lp hlp packages 0
  unfold matchingPackage
  cases hm : matchingPackageFrom g lp 0 packages with
  | none =>
    refine ⟨fun ⟨i, hi⟩ => absurd hi (hn hm i), fun _ => rfl⟩
  | some r =>
    obtain ⟨d, hd, hcl, hmin⟩ := hs r hm
    have hrd : r = d := by omega
    subst hrd
    refine ⟨fun _ => ⟨hcl, hmin⟩, fun hne => absurd ⟨r, hcl⟩ hne⟩

/-- C18 (witness): with a first package `{0,1}` of group 0 and a second package that
spans `{2,3}` of group 0 and `{0,1}` of group 1, bit 1 of group 1 is matched through
the second group mask of row 1; bit 9 belongs to no row and gives index 0. -/
theorem C18_matchingPackage_first_match_witness :
    matchingPackage [[⟨3, 0⟩], [⟨12, 0⟩, ⟨3, 1⟩]] 1 1 = 1 ∧
    (packageClaims [[⟨3, 0⟩], [⟨12, 0⟩, ⟨3, 1⟩]] 1 1
        (matchingPackage [[⟨3, 0⟩], [⟨12, 0⟩, ⟨3, 1⟩]] 1 1) ∧
      ∀ j, packageClaims [[⟨3, 0⟩], [⟨12, 0⟩, ⟨3, 1⟩]] 1 1 j →
        matchingPackage [[⟨3, 0⟩], [⟨12, 0⟩, ⟨3, 1⟩]] 1 1 ≤ j) ∧
    matchingPackage [[⟨3, 0⟩], [⟨12, 0⟩, ⟨3, 1⟩]] 1 9 = 0 :=
  ⟨by decide,
    (C18_matchingPackage_first_match [[⟨3, 0⟩], [⟨12, 0⟩, ⟨3, 1⟩]] 1 1 (by decide)).1
      ⟨1, [⟨12, 0⟩, ⟨3, 1⟩], rfl, ⟨3, 1⟩, by decide, rfl, by decide⟩,
    by decide⟩

/-! ## `ParseHertz`, `NewProcessorIdentifier` and `parseIdentifier` -/

theorem numSubexp_hertzPatternSource : numSubexp hertzPatternSource = 3 := by decide

theorem numSubexp_freqRegexSource : numSubexp freqRegexSource = 1 := by decide

theorem ParseHertz_eq_minus_one {F : Type} (hertzPattern : Regexp hertzPatternSource)
    (ops : Float64Ops F) (s : String) : ParseHertz hertzPattern ops s = .ok (-1) := by
  unfold ParseHertz Regexp.MatchString
  cases hf : hertzPattern.FindStringSubmatch s with
  | none => simp
  | some m =>
    have hlen := hertzPattern.length_submatch s m hf
    rw [numSubexp_hertzPatternSource] at hlen
    match m, hlen with
    | [_, _, _, _], _ => simp

theorem NewProcessorIdentifier_ok {F : Type} (freqRegex : Regexp freqRegexSource)
    (hertzPattern : Regexp hertzPatternSource) (ops : Float64Ops F)
    (vendor name family model stepping processorID : String) (is64bit : Bool)
    (frequency : Int) :
    ∃ p, NewProcessorIdentifier freqRegex hertzPattern ops vendor name family model
        stepping processorID is64bit frequency = .ok p ∧
      p.frequency = (if frequency < 1 then -1 else frequency) ∧
      p.identifier =
        (if vendor = "GenuineIntel" then (if is64bit then "Intel64" else "x86")
          else vendor) ++ " Family " ++ family ++ " Model " ++ model ++ " Stepping " ++
          stepping := by
  unfold NewProcessorIdentifier
  by_cases hfreq : frequency < 1
  · simp only [hfreq, if_true]
    cases hm : freqRegex.FindStringSubmatch name with
    | none => simp [Regexp.MatchString, hm]
    | some m =>
      have hlen := freqRegex.length_submatch name m hm
      rw [numSubexp_freqRegexSource] at hlen
      match m, hlen with
      | [_, unit], _ => simp [Regexp.MatchString, hm, ParseHertz_eq_minus_one]
  · simp [hfreq]

/-- C19: `hertzPattern` has three capturing groups, so a match has four elements and
the test `len(matches) != 3` always holds: `ParseHertz` returns -1 for every string,
whatever the `float64` operations and the multiplier table give, and
`NewProcessorIdentifier` stores the frequency -1 whenever it is called with a
frequency below 1 (and the given frequency otherwise). -/
theorem C19_ParseHertz_always_minus_one {F : Type}
    (hertzPattern : Regexp hertzPatternSource) (freqRegex : Regexp freqRegexSource)
    (ops : Float64Ops F) :
    numSubexp hertzPatternSource = 3 ∧
    (∀ s m, hertzPattern.FindStringSubmatch s = some m → m.length = 4) ∧
    (∀ s, ParseHertz hertzPattern ops s = .ok (-1)) ∧
    ∀ (vendor name family model stepping processorID : String) (is64bit : Bool)
      (frequency : Int),
      ∃ p, NewProcessorIdentifier freqRegex hertzPattern ops vendor name family model
          stepping processorID is64bit frequency = .ok p ∧
        p.frequency = if frequency < 1 then -1 else frequency := by
  refine ⟨numSubexp_hertzPatternSource, ?_, ParseHertz_eq_minus_one hertzPattern ops, ?_⟩
  · intro s m h
    rw [hertzPattern.length_submatch s m h, numSubexp_hertzPatternSource]
  · intro vendor name family model stepping processorID is64bit frequency
    obtain ⟨p, hp, hfreq, _⟩ := NewProcessorIdentifier_ok freqRegex hertzPattern ops vendor
      name family model stepping processorID is64bit frequency
    exact ⟨p, hp, hfreq⟩

theorem fieldsAux_append_space (c : Char) (hc : isSpace c = true) (b : List Char) :
    ∀ (a cur : List Char),
      fieldsAux cur (a ++ c :: b) = fieldsAux cur a ++ fieldsAux [] b
  | [], cur => by
    by_cases hcur : cur = []
    · simp [fieldsAux, hc, hcur]
    · simp [fieldsAux, hc, hcur]
  | x :: a, cur => by
    simp only [List.cons_append, fieldsAux]
    by_cases hx : isSpace x = true
    · by_cases hcur : cur = []
      · simp only [hx, hcur, if_true]
        exact fieldsAux_append_space c hc b a []
      · simp only [hx, hcur, if_true, if_false, List.cons_append]
        congr 1
        exact fieldsAux_append_space c hc b a []
    · simp only [hx, if_false, Bool.false_eq_true]
      exact fieldsAux_append_space c hc b a (cur ++ [x])

theorem fieldsAux_word :
    ∀ (w cur : List Char), (∀ c ∈ w, isSpace c = false) → cur ++ w ≠ [] →
      fieldsAux cur w = [cur ++ w]
  | [], cur, _, hne => by
    have : cur ≠ [] := by simpa using hne
    simp [fieldsAux, this]
  | x :: w, cur, hw, _ => by
    have hx : isSpace x = false := hw x (List.mem_cons_self _ _)
    simp only [fieldsAux, hx, Bool.false_eq_true, if_false]
    rw [fieldsAux_word w (cur ++ [x]) (fun c hcw => hw c (List.mem_cons_of_mem _ hcw))
      (by simp)]
    simp

theorem Fields_identifier (identifier family model stepping : String)
    (hf : family ≠ "" ∧ ∀ c ∈ family.data, isSpace c = false)
    (hm : model ≠ "" ∧ ∀ c ∈ model.data, isSpace c = false)
    (hs : stepping ≠ "" ∧ ∀ c ∈ stepping.data, isSpace c = false) :
    Fields (identifier ++ " Family " ++ family ++ " Model " ++ model ++ " Stepping " ++
        stepping) =
      Fields identifier ++ ["Family", family, "Model", model, "Stepping", stepping] := by
  have hsp : isSpace (Char.ofNat 32) = true := by decide
  have ne : ∀ s : String, s ≠ "" → s.data ≠ [] := by
    intro s hs hd
    apply hs
    cases s
    simp only at hd
    subst hd
    rfl
  have k1 : " Family ".data = Char.ofNat 32 :: ("Family".data ++ [Char.ofNat 32]) := by
    decide
  have k2 : " Model ".data = Char.ofNat 32 :: ("Model".data ++ [Char.ofNat 32]) := by
    decide
  have k3 : " Stepping ".data = Char.ofNat 32 :: ("Stepping".data ++ [Char.ofNat 32]) := by
    decide
  have w1 : fieldsAux [] "Family".data = ["Family".data] := by decide
  have w2 : fieldsAux [] "Model".data = ["Model".data] := by decide
  have w3 : fieldsAux [] "Stepping".data = ["Stepping".data] := by decide
  have hdata : (identifier ++ " Family " ++ family ++ " Model " ++ model ++ " Stepping " ++
      stepping).data =
      identifier.data ++ Char.ofNat 32 :: ("Family".data ++ Char.ofNat 32 ::
        (family.data ++ Char.ofNat 32 :: ("Model".data ++ Char.ofNat 32 ::
          (model.data ++ Char.ofNat 32 :: ("Stepping".data ++ Char.ofNat 32 ::
            stepping.data))))) := by
    simp only [String.data_append, k1, k2, k3, List.append_assoc, List.cons_append,
      List.nil_append]
  unfold Fields
  rw [hdata]
  rw [fieldsAux_append_space _ hsp, fieldsAux_append_space _ hsp,
    fieldsAux_append_space _ hsp, fieldsAux_append_space _ hsp,
    fieldsAux_append_space _ hsp, fieldsAux_append_space _ hsp, w1, w2, w3,
    fieldsAux_word family.data [] hf.2 (by simpa using ne family hf.1),
    fieldsAux_word model.data [] hm.2 (by simpa using ne model hm.1),
    fieldsAux_word stepping.data [] hs.2 (by simpa using ne stepping hs.1)]
  simp

theorem parseIdentifierLoop_not_mem (key : String) :
    ∀ (l : List String), key ∉ l → parseIdentifierLoop key false l = ""
  | [], _ => rfl
  | m :: rest, h => by
    simp only [List.mem_cons, not_or] at h
    have hne : (m == key) = false := by simpa using Ne.symm h.1
    simp only [parseIdentifierLoop, Bool.false_eq_true, if_false, hne]
    exact parseIdentifierLoop_not_mem key rest h.2

theorem parseIdentifierLoop_next (key v : String) (rest : List String) :
    ∀ (pre : List String), key ∉ pre →
      parseIdentifierLoop key false (pre ++ key :: v :: rest) = v
  | [], _ => by simp [parseIdentifierLoop]
  | m :: pre, h => by
    simp only [List.mem_cons, not_or] at h
    have hne : (m == key) = false := by simpa using Ne.symm h.1
    simp only [List.cons_append, parseIdentifierLoop, Bool.false_eq_true, if_false, hne]
    exact parseIdentifierLoop_next key v rest pre h.2

theorem parseIdentifierLoop_last (key : String) :
    ∀ (pre : List String), key ∉ pre → parseIdentifierLoop key false (pre ++ [key]) = ""
  | [], _ => by simp [parseIdentifierLoop]
  | m :: pre, h => by
    simp only [List.mem_cons, not_or] at h
    have hne : (m == key) = false := by simpa using Ne.symm h.1
    simp only [List.cons_append, parseIdentifierLoop, Bool.false_eq_true, if_false, hne]
    exact parseIdentifierLoop_last key pre h.2

/-- C20: for a vendor none of whose fields is `Family`, `Model` or `Stepping`, and a
family, model and stepping that are non-empty, free of white space and none of these
keywords, `NewProcessorIdentifier` returns an identifier from which `parseIdentifier`
reads back the family, the model and the stepping; and `parseIdentifier` returns the
empty string when the key is no field of the string or is only its last field. -/
theorem C20_parseIdentifier_reads_back {F : Type}
    (freqRegex : Regexp freqRegexSource) (hertzPattern : Regexp hertzPatternSource)
    (ops : Float64Ops F)
    (vendor name family model stepping processorID : String) (is64bit : Bool)
    (frequency : Int)
    (hv : NoKeywordField vendor) (hfam : IsPlainWord family) (hmod : IsPlainWord model)
    (hstep : IsPlainWord stepping) :
    (∃ p, NewProcessorIdentifier freqRegex hertzPattern ops vendor name family model
        stepping processorID is64bit frequency = .ok p ∧
      parseIdentifier p.Identifier "Family" = family ∧
      parseIdentifier p.Identifier "Model" = model ∧
      parseIdentifier p.Identifier "Stepping" = stepping) ∧
    (∀ id key : String, key ∉ Fields id → parseIdentifier id key = "") ∧
    (∀ (id key : String) (pre : List String), Fields id = pre ++ [key] → key ∉ pre →
      parseIdentifier id key = "") := by
  refine ⟨?_, fun id key h => parseIdentifierLoop_not_mem key _ h, fun id key pre h hpre => ?_⟩
  · obtain ⟨p, hp, _, hid⟩ := NewProcessorIdentifier_ok freqRegex hertzPattern ops vendor
      name family model stepping processorID is64bit frequency
    have hlead : NoKeywordField
        (if vendor = "GenuineIntel" then (if is64bit then "Intel64" else "x86")
          else vendor) := by
      by_cases hgi : vendor = "GenuineIntel"
      · cases is64bit
        · simp only [hgi, if_true, Bool.false_eq_true, if_false]; decide
        · simp only [hgi, if_true]; decide
      · simp only [hgi, if_false]; exact hv
    have hfields := Fields_identifier
      (if vendor = "GenuineIntel" then (if is64bit then "Intel64" else "x86") else vendor)
      family model stepping ⟨hfam.1, hfam.2.1⟩ ⟨hmod.1, hmod.2.1⟩ ⟨hstep.1, hstep.2.1⟩
    refine ⟨p, hp, ?_, ?_, ?_⟩
    · unfold parseIdentifier ProcessorIdentifier.Identifier
      rw [hid, hfields]
      exact parseIdentifierLoop_next "Family" family _ _
        (fun hmem => (hlead _ hmem).1 rfl)
    · unfold parseIdentifier ProcessorIdentifier.Identifier
      rw [hid, hfields]
      have := parseIdentifierLoop_next "Model" model ["Stepping", stepping]
        (Fields (if vendor = "GenuineIntel" then (if is64bit then "Intel64" else "x86")
          else vendor) ++ ["Family", family])
        (by
          simp only [List.mem_append, List.mem_cons, List.mem_singleton, List.not_mem_nil,
            or_false, not_or]
          exact ⟨fun hmem => (hlead _ hmem).2.1 rfl, by decide,
            fun h => hfam.2.2.2.1 h.symm⟩)
      simpa using this
    · unfold parseIdentifier ProcessorIdentifier.Identifier
      rw [hid, hfields]
      have := parseIdentifierLoop_next "Stepping" stepping []
        (Fields (if vendor = "GenuineIntel" then (if is64bit then "Intel64" else "x86")
          else vendor) ++ ["Family", family, "Model", model])
        (by
          simp only [List.mem_append, List.mem_cons, List.mem_singleton, List.not_mem_nil,
            or_false, not_or]
          exact ⟨fun hmem => (hlead _ hmem).2.2 rfl, by decide,
            fun h => hfam.2.2.2.2 h.symm, by decide, fun h => hmod.2.2.2.2 h.symm⟩)
      simpa using this
  · unfold parseIdentifier
    rw [h]
    exact parseIdentifierLoop_last key pre hpre

/-- C20 (witness): vendor `GenuineIntel` on a 64-bit system with family 6, model 158 and
stepping 13, called with frequency 0: the three values are read back from the
identifier; the key `Stepping` gives the empty string on a string without that field
and on a string that ends with it. -/
theorem C20_parseIdentifier_reads_back_witness :
    NoKeywordField "GenuineIntel" ∧ IsPlainWord "6" ∧ IsPlainWord "158" ∧
    IsPlainWord "13" ∧
    (∃ p, NewProcessorIdentifier freqRegexMatcher hertzPatternMatcher binary64Ops
        "GenuineIntel" "Intel(R) Core(TM) i7-9700K CPU @ 3.60GHz" "6" "158" "13" "" true
        0 = .ok p ∧
      parseIdentifier p.Identifier "Family" = "6" ∧
      parseIdentifier p.Identifier "Model" = "158" ∧
      parseIdentifier p.Identifier "Stepping" = "13") ∧
    parseIdentifier "Intel64 Family 6" "Stepping" = "" ∧
    parseIdentifier "Intel64 Family 6 Stepping" "Stepping" = "" := by
  have hw := C20_parseIdentifier_reads_back freqRegexMatcher hertzPatternMatcher
    binary64Ops "GenuineIntel" "Intel(R) Core(TM) i7-9700K CPU @ 3.60GHz" "6" "158" "13" ""
    true 0 (by decide) (by decide) (by decide) (by decide)
  exact ⟨by decide, by decide, by decide, by decide, hw.1,
    hw.2.1 "Intel64 Family 6" "Stepping" (by decide),
    hw.2.2 "Intel64 Family 6 Stepping" "Stepping" ["Intel64", "Family", "6"] (by decide)
      (by decide)⟩

end Goshi
